import Mathlib

/-!
Verification development for `gpg2openpgpkey.py` (repository
sycured/gpg2openpgpkey): a shallow embedding in Lean 4 of the program's
data model and operations, followed by theorems settling the frozen
claims about it.

Modelling conventions:
* Python 2 `str` values (which are byte strings) are modelled as
  `List Char`; the characters occurring in the program's data are ASCII,
  so `Char.toNat` gives the byte value where raw bytes are needed.
* Raw binary data (the key file contents, `gpg --export` output) is
  modelled as `List Nat`, each element a byte (`< 256`).
* Fallible operations are modelled with `Option`/`Except`; a Python
  exception that the program does not catch is a distinguished error
  value, kept separate from the program's own `error_quit` exits.
-/

namespace Gpg2Openpgpkey

/-! ## Python string primitives -/

/-- Python `s.split(sep)` for a one-character separator: splits at every
occurrence; `"".split(sep) == ['']`, so the result is always nonempty. -/
def pySplit (sep : Char) : List Char → List (List Char)
  | [] => [[]]
  | c :: rest =>
    if c = sep then [] :: pySplit sep rest
    else
      match pySplit sep rest with
      | [] => [[c]]
      | t :: ts => (c :: t) :: ts

/-- Python `s.endswith(c)` for a single character, via the reversed list. -/
def pyEndsWith (s : List Char) (c : Char) : Bool :=
  s.reverse.head? == some c

/-- Number of trailing `'.'` characters of a string (used to state the
trailing-dot claims about owner names). -/
def trailingDots (s : List Char) : Nat :=
  (s.reverse.takeWhile (fun c => c == '.')).length

/-- `stringchunks` (source lines 73-76): yield `n`-octet chunks of `s`.
Python's `xrange` with step 0 would raise `ValueError`; the function is
only ever called with `n = 60`, and the `n = 0` guard below is never hit. -/
def stringchunks {α : Type} (s : List α) (n : Nat) : List (List α) :=
  if s.isEmpty || n == 0 then [] else s.take n :: stringchunks (s.drop n) n
termination_by s.length
decreasing_by
  rename_i h
  simp only [Bool.or_eq_true, List.isEmpty_iff, beq_iff_eq, not_or] at h
  simp only [List.length_drop]
  have : s.length ≠ 0 := fun h0 => h.1 (List.eq_nil_of_length_eq_zero h0)
  omega

/-! ## Hexadecimal encoding (`str.encode('hex')`, `hexdigest`) -/

/-- The lowercase hexadecimal digits. -/
def hexAlphabet : List Char := "0123456789abcdef".data

/-- The character for one nibble (the `% 16` is the identity on the
nibble values actually passed). -/
def nibbleChar (n : Nat) : Char :=
  hexAlphabet.getD (n % 16) '0'

/-- Lowercase hex encoding of a byte list, two characters per byte:
Python 2 `s.encode('hex')`, and the tail of `hashlib`'s `hexdigest`. -/
def hexEncode : List Nat → List Char
  | [] => []
  | b :: rest => nibbleChar (b / 16) :: nibbleChar (b % 16) :: hexEncode rest

/-- Value of one lowercase hex digit. -/
def hexVal (c : Char) : Nat :=
  hexAlphabet.indexOf c

/-- Inverse of `hexEncode` (used to state the generic-RDATA claim). -/
def hexDecode : List Char → List Nat
  | c1 :: c2 :: rest => (hexVal c1 * 16 + hexVal c2) :: hexDecode rest
  | _ => []

/-- A character is a lowercase hexadecimal digit. -/
def isLowerHexDigit (c : Char) : Bool :=
  c.isDigit || ('a' ≤ c && c ≤ 'f')

/-! ## SHA-256 (`hashlib.sha256`)

A direct embedding of FIPS 180-4 SHA-256 over byte lists, as used by
`get_ownername` (source lines 225-233).  All word arithmetic is `Nat`
reduced `% 2 ^ 32`. -/

/-- Right-rotation of a 32-bit word. -/
def rotr32 (n x : Nat) : Nat :=
  x / 2 ^ n + x % 2 ^ n * 2 ^ (32 - n)

/-- Small sigma 0. -/
def ssig0 (x : Nat) : Nat := rotr32 7 x ^^^ rotr32 18 x ^^^ x / 8

/-- Small sigma 1. -/
def ssig1 (x : Nat) : Nat := rotr32 17 x ^^^ rotr32 19 x ^^^ x / 1024

/-- Big sigma 0. -/
def bsig0 (x : Nat) : Nat := rotr32 2 x ^^^ rotr32 13 x ^^^ rotr32 22 x

/-- Big sigma 1. -/
def bsig1 (x : Nat) : Nat := rotr32 6 x ^^^ rotr32 11 x ^^^ rotr32 25 x

/-- Choice function. -/
def chf (x y z : Nat) : Nat := (x &&& y) ^^^ ((x ^^^ 4294967295) &&& z)

/-- Majority function. -/
def majf (x y z : Nat) : Nat := (x &&& y) ^^^ (x &&& z) ^^^ (y &&& z)

/-- The 64 SHA-256 round constants. -/
def sha256K : List Nat :=
  [1116352408, 1899447441, 3049323471, 3921009573, 961987163,
   1508970993, 2453635748, 2870763221, 3624381080, 310598401,
   607225278, 1426881987, 1925078388, 2162078206, 2614888103,
   3248222580, 3835390401, 4022224774, 264347078, 604807628,
   770255983, 1249150122, 1555081692, 1996064986, 2554220882,
   2821834349, 2952996808, 3210313671, 3336571891, 3584528711,
   113926993, 338241895, 666307205, 773529912, 1294757372,
   1396182291, 1695183700, 1986661051, 2177026350, 2456956037,
   2730485921, 2820302411, 3259730800, 3345764771, 3516065817,
   3600352804, 4094571909, 275423344, 430227734, 506948616,
   659060556, 883997877, 958139571, 1322822218, 1537002063,
   1747873779, 1955562222, 2024104815, 2227730452, 2361852424,
   2428436474, 2756734187, 3204031479, 3329325298]

/-- Working state of the compression function: the eight 32-bit words. -/
structure Sha256State where
  a : Nat
  b : Nat
  c : Nat
  d : Nat
  e : Nat
  f : Nat
  g : Nat
  h : Nat

/-- Initial hash value. -/
def sha256Init : Sha256State :=
  ⟨1779033703, 3144134277, 1013904242, 2773480762,
   1359893119, 2600822924, 528734635, 1541459225⟩

/-- One round of the compression function. -/
def sha256Round (st : Sha256State) (k w : Nat) : Sha256State :=
  let t1 := (st.h + bsig1 st.e + chf st.e st.f st.g + k + w) % 2 ^ 32
  let t2 := (bsig0 st.a + majf st.a st.b st.c) % 2 ^ 32
  ⟨(t1 + t2) % 2 ^ 32, st.a, st.b, st.c, (st.d + t1) % 2 ^ 32, st.e, st.f, st.g⟩

/-- Extend the 16 message-schedule words by `k` more. -/
def sha256Extend (w : List Nat) : Nat → List Nat
  | 0 => w
  | k + 1 =>
    sha256Extend
      (w ++ [(w.getD (w.length - 16) 0 + ssig0 (w.getD (w.length - 15) 0)
              + w.getD (w.length - 7) 0 + ssig1 (w.getD (w.length - 2) 0)) % 2 ^ 32])
      k

/-- Big-endian 32-bit words from a list of bytes (length a multiple of 4). -/
def bytesToWords : List Nat → List Nat
  | b0 :: b1 :: b2 :: b3 :: rest =>
    (b0 * 16777216 + b1 * 65536 + b2 * 256 + b3) :: bytesToWords rest
  | _ => []

/-- The four big-endian bytes of a 32-bit word. -/
def wordBytes (w : Nat) : List Nat :=
  [w / 16777216 % 256, w / 65536 % 256, w / 256 % 256, w % 256]

/-- Compress one 64-byte block into the running state. -/
def sha256Block (st : Sha256State) (block : List Nat) : Sha256State :=
  let w := sha256Extend (bytesToWords block) 48
  let fin := (sha256K.zip w).foldl (fun s kw => sha256Round s kw.1 kw.2) st
  ⟨(st.a + fin.a) % 2 ^ 32, (st.b + fin.b) % 2 ^ 32, (st.c + fin.c) % 2 ^ 32,
   (st.d + fin.d) % 2 ^ 32, (st.e + fin.e) % 2 ^ 32, (st.f + fin.f) % 2 ^ 32,
   (st.g + fin.g) % 2 ^ 32, (st.h + fin.h) % 2 ^ 32⟩

/-- Big-endian 8-byte encoding of the message bit length. -/
def sha256LenBytes (bits : Nat) : List Nat :=
  [bits / 2 ^ 56 % 256, bits / 2 ^ 48 % 256, bits / 2 ^ 40 % 256,
   bits / 2 ^ 32 % 256, bits / 2 ^ 24 % 256, bits / 2 ^ 16 % 256,
   bits / 2 ^ 8 % 256, bits % 256]

/-- FIPS 180-4 padding: `0x80`, zeros to 56 mod 64, then the bit length. -/
def sha256Pad (msg : List Nat) : List Nat :=
  msg ++ 128 :: List.replicate ((64 - (msg.length + 9) % 64) % 64) 0
      ++ sha256LenBytes (8 * msg.length)

/-- The 32-byte SHA-256 digest of a byte list. -/
def sha256Bytes (msg : List Nat) : List Nat :=
  let final := (stringchunks (sha256Pad msg) 64).foldl sha256Block sha256Init
  wordBytes final.a ++ wordBytes final.b ++ wordBytes final.c ++ wordBytes final.d
    ++ wordBytes final.e ++ wordBytes final.f ++ wordBytes final.g ++ wordBytes final.h

/-- `hashlib.sha256(msg).hexdigest()`: 64 lowercase hex characters. -/
def sha256Hex (msg : List Nat) : List Char :=
  hexEncode (sha256Bytes msg)

/-! ## Base64 (`base64.standard_b64encode`) -/

/-- The standard base64 alphabet. -/
def b64Alphabet : List Char :=
  "ABCDEFGHIJKLMNOPQRSTUVWXYZabcdefghijklmnopqrstuvwxyz0123456789+/".data

/-- The character for one 6-bit group (always applied to values `< 64`). -/
def b64Char (n : Nat) : Char :=
  b64Alphabet.getD n 'A'

/-- The 6-bit value of a base64 character. -/
def b64Val (c : Char) : Nat :=
  b64Alphabet.indexOf c

/-- `base64.standard_b64encode`: three bytes to four characters, with
`'='` padding for a trailing group of one or two bytes. -/
def b64Encode : List Nat → List Char
  | [] => []
  | [a] => [b64Char (a / 4), b64Char (a % 4 * 16), '=', '=']
  | [a, b] => [b64Char (a / 4), b64Char (a % 4 * 16 + b / 16), b64Char (b % 16 * 4), '=']
  | a :: b :: c :: rest =>
    b64Char (a / 4) :: b64Char (a % 4 * 16 + b / 16)
      :: b64Char (b % 16 * 4 + c / 64) :: b64Char (c % 64) :: b64Encode rest

/-- Standard base64 decoding of a padded encoding (used to state the
round-trip claim about the typed-record formatter). -/
def b64Decode : List Char → List Nat
  | c1 :: c2 :: c3 :: c4 :: rest =>
    if c3 = '=' then [b64Val c1 * 4 + b64Val c2 / 16]
    else if c4 = '=' then
      [b64Val c1 * 4 + b64Val c2 / 16, b64Val c2 % 16 * 16 + b64Val c3 / 4]
    else
      (b64Val c1 * 4 + b64Val c2 / 16) :: (b64Val c2 % 16 * 16 + b64Val c3 / 4)
        :: (b64Val c3 % 4 * 64 + b64Val c4) :: b64Decode rest
  | _ => []

/-! ## Identity parsing and owner-name derivation -/

/-- Strip leading and trailing spaces. -/
def stripSpaces (s : List Char) : List Char :=
  ((s.dropWhile (fun c => c == ' ')).reverse.dropWhile (fun c => c == ' ')).reverse

/-- Modelled from the spec: `rfc822.parseaddr` is Python-stdlib code, not
part of this repository's sources.  Spec section 4.2 describes the identity
string as "parsed into (name, address) by splitting the email-style syntax
(address is the substring between `<` and `>` if present, otherwise an
angle-bracket-free address token; absence of an `@` means no usable
address)"; this definition follows those words. -/
def parseaddr (s : List Char) : List Char × List Char :=
  if '<' ∈ s then
    (stripSpaces (s.takeWhile (fun c => c ≠ '<')),
     ((s.dropWhile (fun c => c ≠ '<')).drop 1).takeWhile (fun c => c ≠ '>'))
  else ([], s)

/-- `validate_uid` (source lines 217-222): parse the identity argument and
accept it exactly when the extracted address contains an `'@'`. -/
def validate_uid (inputstring : List Char) : Option (List Char) :=
  let email := (parseaddr inputstring).2
  if '@' ∈ email then some email else none

/-- Byte values of a Python 2 string (ASCII data in this program). -/
def pyBytes (s : List Char) : List Nat :=
  s.map Char.toNat

/-- `get_ownername` (source lines 225-233).  `email.split('@')` is
destructured into exactly two names; any other number of parts raises
`ValueError`, modelled as `none`.  The owner is the first 56 characters of
`sha256(localpart).hexdigest()`, then `._openpgpkey.`, then the right-hand
side, with a final `'.'` appended when the string does not already end in
one. -/
def get_ownername (email : List Char) : Option (List Char) :=
  match pySplit '@' email with
  | [localpart, rhs] =>
    let owner := (sha256Hex (pyBytes localpart)).take 56 ++ "._openpgpkey.".data ++ rhs
    some (if pyEndsWith owner '.' then owner else owner ++ ['.'])
  | _ => none

/-! ## Record formatting (`gen_openpgpkey`) -/

/-- The 18-space indentation of each wrapped line (source lines 241, 245). -/
def indent18 : List Char := "                  ".data

/-- The body built by `gen_openpgpkey`'s `for` loop: one line per chunk,
indented and newline-terminated (`output += "..." per iteration`). -/
def chunkLines (chunks : List (List Char)) : List Char :=
  (chunks.map (fun line => indent18 ++ line ++ ['\n'])).flatten

/-- Decimal representation of a natural number, as produced by Python's
`"{}".format(len(keydata))` (most significant digit first; digits are the
first ten characters of `hexAlphabet`). -/
def decimalDigits (n : Nat) : List Char :=
  if h : n < 10 then [nibbleChar n]
  else decimalDigits (n / 10) ++ [nibbleChar (n % 10)]
termination_by n
decreasing_by
  exact Nat.div_lt_self (by omega) (by omega)

/-- The record text `gen_openpgpkey` (source lines 236-247) builds once the
owner name is in hand.  Typed mode wraps the base64 encoding after a
`"... IN OPENPGPKEY (\n"` header; generic mode wraps the hex encoding after
a `"... IN TYPE61 \# <len> ("` header (note: no newline after the opening
parenthesis in generic mode), and both append a closing `")"`. -/
def gen_rdata (owner : List Char) (keydata : List Nat) (generic : Bool) : List Char :=
  if !generic then
    owner ++ " IN OPENPGPKEY (\n".data
      ++ chunkLines (stringchunks (b64Encode keydata) 60) ++ [')']
  else
    owner ++ " IN TYPE61 \\# ".data ++ decimalDigits keydata.length ++ " (".data
      ++ chunkLines (stringchunks (hexEncode keydata) 60) ++ [')']

/-- `gen_openpgpkey` (source lines 236-247): derive the owner name from the
email, then format; a `ValueError` from `get_ownername` propagates. -/
def gen_openpgpkey (email : List Char) (keydata : List Nat) (generic : Bool) :
    Option (List Char) :=
  (get_ownername email).map (fun owner => gen_rdata owner keydata generic)

/-! ## Numeric literals (`int(...)`, `float(...)`)

`OpenPGPKey.__init__` applies `int` to the algorithm and key-length fields
and `float` to the creation date; a non-numeric field raises `ValueError`.
The recognizers below cover the decimal forms that occur in colon-delimited
listings (an optional sign, digits, and for `float` an optional fractional
part); the exotic spellings `float` also accepts (exponents, `inf`, `nan`)
never appear in the listing format and are not modelled. -/

/-- Strip one leading `'+'`/`'-'`. -/
def stripSign (s : List Char) : List Char :=
  match s with
  | c :: rest => if c = '-' || c = '+' then rest else s
  | [] => s

/-- Whether `int(s)` succeeds: an optional sign followed by digits. -/
def isIntLit (s : List Char) : Bool :=
  !(stripSign s).isEmpty && (stripSign s).all Char.isDigit

/-- Whether `float(s)` succeeds on a decimal literal. -/
def isFloatLit (s : List Char) : Bool :=
  !(stripSign s).isEmpty
    && (stripSign s).all (fun c => c.isDigit || c == '.')
    && (stripSign s).count '.' ≤ 1
    && (stripSign s).any Char.isDigit

/-- Value of a digit string. -/
def digitsVal (s : List Char) : Nat :=
  s.foldl (fun a c => a * 10 + (c.toNat - 48)) 0

/-- `int(s)` (meaningful when `isIntLit s`). -/
def pyInt (s : List Char) : Int :=
  match s with
  | '-' :: rest => -(digitsVal rest : Int)
  | '+' :: rest => (digitsVal rest : Int)
  | _ => (digitsVal s : Int)

/-! ## Key model and listing parser -/

/-- `OpenPGPKey` (source lines 149-177): a primary key or subkey.  The
creation date is kept as the verbatim `float` literal (its numeric value is
never consulted); `uidlist` holds the `rfc822.parseaddr` pairs appended by
`add_uid`. -/
structure PKey where
  keyid : List Char
  fingerprint : Option (List Char)
  alg : Int
  keylen : Int
  flags : List Char
  createDate : List Char
  keydata : Option (List Nat)
  uidlist : List (List Char × List Char)
  subkeys : List PKey

instance : Inhabited PKey := ⟨⟨[], none, 0, 0, [], [], none, [], []⟩⟩

/-- `OpenPGPKey.__init__`: `int`/`float` conversion of the numeric fields
(`ValueError` on failure, modelled as `none`); `keydata` is kept only when
truthy (a nonempty byte string). -/
def mkOpenPGPKey (keyid alg keylen flags date : List Char)
    (keydata : Option (List Nat)) : Option PKey :=
  if isIntLit alg && isIntLit keylen && isFloatLit date then
    some ⟨keyid, none, pyInt alg, pyInt keylen, flags, date,
          match keydata with
          | some kd => if kd.isEmpty then none else some kd
          | none => none,
          [], []⟩
  else none

/-- `OpenPGPKey.add_uid` (source lines 168-170). -/
def addUid (p : PKey) (uid : List Char) : PKey :=
  { p with uidlist := p.uidlist ++ [parseaddr uid] }

/-- `OpenPGPKey.has_uid` (source lines 175-177). -/
def has_uid (p : PKey) (uid : List Char) : Bool :=
  p.uidlist.any (fun x => x.2 == (parseaddr uid).2)

/-- Overwrite the fingerprint of the last subkey (the object
`parse_key`'s `currentKey` aliases after a `sub` record). -/
def setLastSubFpr (fp : List Char) : List PKey → List PKey
  | [] => []
  | [s] => [{ s with fingerprint := some fp }]
  | s :: rest => s :: setLastSubFpr fp rest

/-- How a run of `parse_key` ends abnormally: `quit` is an `error_quit`
call (printed diagnostic and `sys.exit(1)`), `crash` an uncaught Python
exception (`IndexError`/`ValueError`/...). -/
inductive PErr where
  | quit (rc : Nat) (msg : String)
  | crash (msg : String)
deriving DecidableEq

/-- The parser's mutable context (source lines 103-105): the primary key
`p`, the `pubkeySeen` flag, and whether `currentKey` points at the most
recently appended subkey rather than at `p`. -/
structure PState where
  p : Option PKey
  pubkeySeen : Bool
  curIsSub : Bool

/-- One iteration of `parse_key`'s loop (source lines 107-145), for a
single line of the listing; `keydata` is `parse_key`'s second argument,
attached to the primary key at its construction. -/
def parseLine (keydata : List Nat) (st : PState) (line : List Char) : Except PErr PState :=
  let parts := pySplit ':' line
  let rectype := parts.headD []
  if rectype = "tru".data then .ok st
  else if rectype = "pub".data then
    if st.pubkeySeen then .error (.quit 11 ("more than one public key given."))
    else if parts.length < 12 then
      .error (.crash ("ValueError: unpacking parts of a short pub line"))
    else
      match mkOpenPGPKey (parts.getD 4 []) (parts.getD 3 []) (parts.getD 2 [])
          (parts.getD 11 []) (parts.getD 5 []) (some keydata) with
      | none => .error (.crash ("ValueError: non-numeric pub field"))
      | some p => .ok { st with p := some p, pubkeySeen := true, curIsSub := false }
  else if rectype = "uid".data then
    match parts.get? 9 with
    | none => .error (.crash ("IndexError: uid line with fewer than 10 fields"))
    | some userid =>
      match st.p with
      | some p => .ok { st with p := some (addUid p userid) }
      | none => .error (.quit 11 ("uid found without preceding pubkey."))
  else if rectype = "sub".data then
    if !st.pubkeySeen then .error (.quit 11 ("subkey without preceding pubkey."))
    else if parts.length < 12 then
      .error (.crash ("ValueError: unpacking parts of a short sub line"))
    else
      match mkOpenPGPKey (parts.getD 4 []) (parts.getD 3 []) (parts.getD 2 [])
          (parts.getD 11 []) (parts.getD 5 []) none with
      | none => .error (.crash ("ValueError: non-numeric sub field"))
      | some s =>
        match st.p with
        | some p =>
          .ok { st with p := some { p with subkeys := p.subkeys ++ [s] }, curIsSub := true }
        | none => .error (.crash ("AttributeError: subkey with no primary"))
  else if rectype = "fpr".data then
    match parts.get? 9 with
    | none => .error (.crash ("IndexError: fpr line with fewer than 10 fields"))
    | some fp =>
      match st.p with
      | some p =>
        if st.curIsSub then
          .ok { st with p := some { p with subkeys := setLastSubFpr fp p.subkeys } }
        else
          .ok { st with p := some { p with fingerprint := some fp } }
      | none => .error (.quit 11 ("fpr found without preceding pubkey."))
  else .ok st

/-- `parse_key` (source lines 98-146): split the listing into lines, run
the loop, and return the primary key (or `None` when no `pub` record was
seen). -/
def parse_key (indata : List Char) (keydata : List Nat) :
    Except PErr (Option PKey) :=
  ((pySplit '\n' indata).foldlM (parseLine keydata) ⟨none, false, false⟩).map PState.p

/-! ## Bounded process runner (`RunProgram`)

`RunProgram` (source lines 191-214) runs `self.cmd` on a worker thread:
`run` calls `subprocess.Popen(...).communicate(...)` and records the
combined stdout/stderr and the return code; `Start` joins the thread with
`self.timeout`, and when the thread is still alive at the deadline it
terminates the process, joins unboundedly, and appends a marker to the
captured output (line 214).  The external process and the thread timing
are abstracted as a `ProcBehavior` oracle: `producedOutput` is what
`communicate` returned by the time the process ended, `finishedInTime` the
result of the `is_alive()` test after `join(self.timeout)`, and
`finalReturncode` the `Popen.returncode` seen by `run` (the process's own
exit status when it finished; the negated signal number, a negative value,
when it was killed by `terminate()`). -/

/-- Oracle describing one external process invocation. -/
structure ProcBehavior where
  producedOutput : List Char
  finishedInTime : Bool
  finalReturncode : Int

/-- What `Start` leaves in `self.output` and `self.returncode`. -/
structure RunResult where
  output : List Char
  returncode : Int

/-- The timeout marker of source line 214:
`"\nTimeout: No response in %d seconds\n" % self.timeout`. -/
def timeoutMarker (timeout : Nat) : List Char :=
  "\nTimeout: No response in ".data ++ (toString timeout).data ++ " seconds\n".data

/-- `RunProgram.Start` (source lines 208-214) under the oracle. -/
def runProgramStart (proc : ProcBehavior) (timeout : Nat) : RunResult :=
  if proc.finishedInTime then ⟨proc.producedOutput, proc.finalReturncode⟩
  else ⟨proc.producedOutput ++ timeoutMarker timeout, proc.finalReturncode⟩

/-! ## Orchestration (`__main__`, source lines 268-307)

The effectful steps are abstracted as an environment: the two command-line
arguments (after `process_args`), the key file's contents, the three gpg
invocations' results (each a `RunResult`, i.e. what `RunProgram.Start`
left behind), and whether `shutil.rmtree` succeeds.  `main_run` is the
exact control flow of the `__main__` block over that environment. -/

/-- Environment of one run. -/
structure MainEnv where
  uidArg : List Char
  keyfile : List Nat
  importRes : RunResult
  listRes : RunResult
  exportRes : List Nat × Int
  rmtreeOk : Bool
  generic : Bool

/-- How a run ends: `exit code record` is `sys.exit(code)` with `record`
the OPENPGPKEY record text printed to stdout (if the run got that far);
`pyError` is an uncaught Python exception (traceback on stderr, interpreter
exit status 1, no record printed). -/
inductive MainOutcome where
  | exit (code : Nat) (record : Option (List Char))
  | pyError (msg : String)
deriving DecidableEq

/-- `__main__` (source lines 268-307).  Notable points, each taken from
the source: the `validate_uid` failure branch calls
`error_quit(11, "invalid uid specified", None)` (line 274) — but
`error_quit` takes two arguments (line 261), so this branch raises
`TypeError` before printing anything; a failing gpg step goes through
`error_quit`, which exits with status 1; after the record has been
printed, a failing `rmtree` prints a diagnostic and exits with status 11
(lines 305-307). -/
def main_run (env : MainEnv) : MainOutcome :=
  match validate_uid env.uidArg with
  | none => .pyError ("TypeError: error_quit() takes exactly 2 arguments (3 given)")
  | some uid =>
    if env.importRes.returncode ≠ 0 then .exit 1 none
    else if env.listRes.returncode ≠ 0 then .exit 1 none
    else
      match parse_key env.listRes.output env.keyfile with
      | .error (.quit _ _) => .exit 1 none
      | .error (.crash m) => .pyError m
      | .ok none => .exit 1 none
      | .ok (some pgpkey) =>
        if !has_uid pgpkey uid then .exit 1 none
        else if env.exportRes.2 ≠ 0 then .exit 1 none
        else
          match gen_openpgpkey uid env.exportRes.1 env.generic with
          | none => .pyError ("ValueError: too many values to unpack in get_ownername")
          | some record =>
            if env.rmtreeOk then .exit 0 (some record)
            else .exit 11 (some record)

/-- The exit code of an outcome (`none` for an uncaught exception, which
makes the interpreter exit with status 1). -/
def exitCodeOf : MainOutcome → Option Nat
  | .exit code _ => some code
  | .pyError _ => none

/-- The record printed by an outcome, if any. -/
def recordOf : MainOutcome → Option (List Char)
  | .exit _ record => record
  | .pyError _ => none

/-! ## Lemmas about the string primitives -/

theorem pySplit_of_not_mem {sep : Char} {a : List Char} (ha : sep ∉ a) :
    pySplit sep a = [a] := by
  induction a with
  | nil => rfl
  | cons c rest ih =>
    have hc : c ≠ sep := fun h => ha (h ▸ List.mem_cons_self c rest)
    have hrest : sep ∉ rest := fun h => ha (List.mem_cons_of_mem c h)
    simp [pySplit, hc, ih hrest]

theorem pySplit_append_sep {sep : Char} {a b : List Char} (ha : sep ∉ a) :
    pySplit sep (a ++ sep :: b) = a :: pySplit sep b := by
  induction a with
  | nil => simp [pySplit]
  | cons c rest ih =>
    have hc : c ≠ sep := fun h => ha (h ▸ List.mem_cons_self c rest)
    have hrest : sep ∉ rest := fun h => ha (List.mem_cons_of_mem c h)
    simp [List.cons_append, pySplit, hc, ih hrest]

theorem pySplit_ne_nil (sep : Char) (s : List Char) : pySplit sep s ≠ [] := by
  cases s with
  | nil => simp [pySplit]
  | cons c rest =>
    by_cases hc : c = sep
    · simp [pySplit, hc]
    · rcases h : pySplit sep rest with _ | ⟨t, ts⟩ <;> simp [pySplit, hc, h]

theorem pySplit_length (sep : Char) (s : List Char) :
    (pySplit sep s).length = s.count sep + 1 := by
  induction s with
  | nil => simp [pySplit]
  | cons c rest ih =>
    by_cases hc : c = sep
    · subst hc
      simp [pySplit, List.count_cons, ih]
    · rcases h : pySplit sep rest with _ | ⟨t, ts⟩
      · exact absurd h (pySplit_ne_nil sep rest)
      · have h2 : (pySplit sep (c :: rest)).length = (pySplit sep rest).length := by
          simp [pySplit, hc, h]
        rw [h2, ih, List.count_cons]
        simp [hc]

theorem pyEndsWith_append {x y : List Char} (c : Char) (hy : y ≠ []) :
    pyEndsWith (x ++ y) c = pyEndsWith y c := by
  unfold pyEndsWith
  rw [List.reverse_append]
  rcases h : y.reverse with _ | ⟨d, t⟩
  · exact absurd (by simpa using congrArg List.reverse h) hy
  · simp [h]

theorem takeWhile_append_of_exists_not {p : Char → Bool} :
    ∀ {a : List Char} (b : List Char), (∃ x ∈ a, p x = false) →
      (a ++ b).takeWhile p = a.takeWhile p
  | [], _, h => by simp at h
  | c :: rest, b, h => by
    by_cases hc : p c
    · have : ∃ x ∈ rest, p x = false := by
        rcases h with ⟨x, hx, hpx⟩
        rcases List.mem_cons.mp hx with rfl | hx'
        · exact absurd hc (by simp [hpx])
        · exact ⟨x, hx', hpx⟩
      simp [List.takeWhile_cons, hc, takeWhile_append_of_exists_not b this]
    · simp [List.takeWhile_cons, Bool.eq_false_iff.mpr hc]

theorem trailingDots_append_dot (s : List Char) :
    trailingDots (s ++ ['.']) = trailingDots s + 1 := by
  simp [trailingDots, List.takeWhile_cons]

theorem trailingDots_eq_zero {s : List Char} (hs : s ≠ [])
    (h : pyEndsWith s '.' = false) : trailingDots s = 0 := by
  unfold pyEndsWith at h
  rcases hr : s.reverse with _ | ⟨d, t⟩
  · exact absurd (by simpa using congrArg List.reverse hr) hs
  · rw [hr] at h
    simp only [List.head?_cons, beq_iff_eq, Option.some.injEq] at h
    have hd : (d == '.') = false := by simpa using h
    simp [trailingDots, hr, List.takeWhile_cons, hd]

theorem trailingDots_pos {s : List Char} (h : pyEndsWith s '.' = true) :
    1 ≤ trailingDots s := by
  unfold pyEndsWith at h
  rcases hr : s.reverse with _ | ⟨d, t⟩
  · rw [hr] at h; simp at h
  · rw [hr] at h
    simp only [List.head?_cons, beq_iff_eq, Option.some.injEq] at h
    subst h
    simp [trailingDots, hr, List.takeWhile_cons]

/-! ## Lemmas about hex encoding and the digest shape -/

theorem nibbleChar_lower_hex (n : Nat) : isLowerHexDigit (nibbleChar n) = true := by
  have h : n % 16 < 16 := Nat.mod_lt _ (by norm_num)
  unfold nibbleChar
  generalize n % 16 = m at h
  interval_cases m <;> decide

theorem hexEncode_length (bs : List Nat) : (hexEncode bs).length = 2 * bs.length := by
  induction bs with
  | nil => rfl
  | cons b rest ih => simp [hexEncode, ih]; ring

theorem hexEncode_lower_hex {bs : List Nat} :
    ∀ c ∈ hexEncode bs, isLowerHexDigit c = true := by
  induction bs with
  | nil => simp [hexEncode]
  | cons b rest ih =>
    intro c hc
    simp only [hexEncode, List.mem_cons] at hc
    rcases hc with rfl | rfl | hc
    · exact nibbleChar_lower_hex _
    · exact nibbleChar_lower_hex _
    · exact ih c hc

theorem sha256Bytes_length (msg : List Nat) : (sha256Bytes msg).length = 32 := by
  simp [sha256Bytes, wordBytes]

theorem sha256Hex_length (msg : List Nat) : (sha256Hex msg).length = 64 := by
  simp [sha256Hex, hexEncode_length, sha256Bytes_length]

/-! ## Claim C1: the owner-name derivation -/

/-- The char-list form of the `._openpgpkey.` separator. -/
theorem openpgpkey_sep_chars :
    "._openpgpkey.".data = ['.', '_', 'o', 'p', 'e', 'n', 'p', 'g', 'p', 'k', 'e', 'y', '.'] :=
  rfl

/-- The owner name built by `get_ownername` before its trailing-dot test
ends in `'.'` exactly when the domain is empty or itself ends in `'.'`
(with an empty domain the `"._openpgpkey."` separator supplies the final
dot). -/
theorem ownername_base_ends (x r : List Char) :
    pyEndsWith (x ++ "._openpgpkey.".data ++ r) '.' = (r.isEmpty || pyEndsWith r '.') := by
  rcases eq_or_ne r [] with rfl | hne
  · rw [List.append_nil, pyEndsWith_append '.' (by decide)]
    decide
  · rw [pyEndsWith_append '.' hne]
    simp [hne]

/-- Closed form of `get_ownername` when the built name already ends in a
dot (domain empty or dot-terminated): nothing is appended. -/
theorem get_ownername_eq_dot {l r : List Char} (hl : '@' ∉ l) (hr : '@' ∉ r)
    (hdot : (r.isEmpty || pyEndsWith r '.') = true) :
    get_ownername (l ++ '@' :: r) =
      some ((sha256Hex (pyBytes l)).take 56 ++ "._openpgpkey.".data ++ r) := by
  unfold get_ownername
  rw [pySplit_append_sep hl, pySplit_of_not_mem hr]
  simp only [Option.some.injEq]
  rw [← openpgpkey_sep_chars]
  rw [if_pos ((ownername_base_ends _ r).trans hdot)]

/-- Closed form of `get_ownername` when the built name does not end in a
dot (domain nonempty, not dot-terminated): a single dot is appended. -/
theorem get_ownername_eq_nodot {l r : List Char} (hl : '@' ∉ l) (hr : '@' ∉ r)
    (hne : r ≠ []) (hnd : pyEndsWith r '.' = false) :
    get_ownername (l ++ '@' :: r) =
      some ((sha256Hex (pyBytes l)).take 56 ++ "._openpgpkey.".data ++ r ++ ['.']) := by
  unfold get_ownername
  rw [pySplit_append_sep hl, pySplit_of_not_mem hr]
  simp only [Option.some.injEq]
  rw [← openpgpkey_sep_chars]
  rw [if_neg]
  rw [ownername_base_ends]
  simp [hne, hnd]


/-- C1 — corrected.  For a validated address `l@r` with exactly one `'@'`:
the owner name is the first 56 characters of the lowercase hexadecimal
SHA-256 digest of the local part's exact bytes, then `._openpgpkey.`, then
the domain, with a dot appended exactly when the name does not already end
in one; the hash segment is exactly 56 lowercase hex characters; the
derivation is a pure function (deterministic); the result always ends in
at least one dot, and in exactly one whenever the domain does not itself
end in a dot.  (The original claim's unconditional "exactly one trailing
dot" is refuted by `c1_owner_name_counterexample`.) -/
theorem c1_owner_name (email l r : List Char)
    (hsplit : email = l ++ '@' :: r) (hl : '@' ∉ l) (hr : '@' ∉ r) :
    get_ownername email =
      some ((sha256Hex (pyBytes l)).take 56 ++ "._openpgpkey.".data ++ r ++
        (if (r.isEmpty || pyEndsWith r '.') = true then [] else ['.'])) ∧
    ((sha256Hex (pyBytes l)).take 56).length = 56 ∧
    (∀ c ∈ (sha256Hex (pyBytes l)).take 56, isLowerHexDigit c = true) ∧
    (∀ owner, get_ownername email = some owner →
      1 ≤ trailingDots owner ∧ (pyEndsWith r '.' = false → trailingDots owner = 1)) := by
  subst hsplit
  have hlen : ((sha256Hex (pyBytes l)).take 56).length = 56 := by
    rw [List.length_take, sha256Hex_length]
    decide
  refine ⟨?_, hlen, ?_, ?_⟩
  · rcases hdot : (r.isEmpty || pyEndsWith r '.') with _ | _
    · rw [if_neg (by simp)]
      exact get_ownername_eq_nodot hl hr (by simpa using (Bool.or_eq_false_iff.mp hdot).1)
        (Bool.or_eq_false_iff.mp hdot).2
    · rw [if_pos rfl, List.append_nil]
      exact get_ownername_eq_dot hl hr hdot
  · intro c hc
    exact hexEncode_lower_hex c (List.mem_of_mem_take hc)
  · intro owner howner
    rcases hdot : (r.isEmpty || pyEndsWith r '.') with _ | _
    · obtain ⟨hne, hnd⟩ := Bool.or_eq_false_iff.mp hdot
      have hne' : r ≠ [] := by simpa using hne
      rw [get_ownername_eq_nodot hl hr hne' hnd, Option.some.injEq] at howner
      subst howner
      rw [trailingDots_append_dot]
      have h0 : trailingDots ((sha256Hex (pyBytes l)).take 56 ++ "._openpgpkey.".data ++ r)
          = 0 := by
        apply trailingDots_eq_zero (by simp [hne'])
        rw [ownername_base_ends]
        exact hdot
      omega
    · rw [get_ownername_eq_dot hl hr hdot, Option.some.injEq] at howner
      subst howner
      rcases hre : r.isEmpty with _ | _
      · have hrd : pyEndsWith r '.' = true := by
          rcases Bool.or_eq_true_iff.mp hdot with h | h
          · rw [hre] at h; exact absurd h (by simp)
          · exact h
        refine ⟨trailingDots_pos (by rw [ownername_base_ends]; exact hdot), fun hc => ?_⟩
        rw [hrd] at hc
        exact absurd hc (by simp)
      · have hrnil : r = [] := by simpa using hre
        subst hrnil
        have hval : trailingDots ((sha256Hex (pyBytes l)).take 56 ++ "._openpgpkey.".data ++ [])
            = 1 := by
          rw [List.append_nil]
          unfold trailingDots
          rw [List.reverse_append,
            takeWhile_append_of_exists_not _ (by exact ⟨'y', by decide, by decide⟩)]
          decide
        exact ⟨by omega, fun _ => hval⟩

/-- C1 witness: the corrected statement applied at the concrete validated
address `a@b.c`. -/
theorem c1_owner_name_witness :
    get_ownername ("a@b.c".data) =
      some ((sha256Hex (pyBytes ['a'])).take 56 ++ "._openpgpkey.".data ++ "b.c".data ++
        (if (("b.c".data).isEmpty || pyEndsWith ("b.c".data) '.') = true
         then [] else ['.'])) ∧
    ((sha256Hex (pyBytes ['a'])).take 56).length = 56 ∧
    (∀ c ∈ (sha256Hex (pyBytes ['a'])).take 56, isLowerHexDigit c = true) ∧
    (∀ owner, get_ownername ("a@b.c".data) = some owner →
      1 ≤ trailingDots owner ∧ (pyEndsWith ("b.c".data) '.' = false → trailingDots owner = 1)) :=
  c1_owner_name ("a@b.c".data) ['a'] ("b.c".data) (by decide) (by decide) (by decide)

/-- C1 counterexample: `a@b..` is accepted by the identity validator and
contains exactly one `'@'`, yet its owner name ends in two trailing dots,
not exactly one: the code appends no dot because the name already ends in
one, but it never collapses the dots the domain brought along. -/
theorem c1_owner_name_counterexample :
    validate_uid ("a@b..".data) = some ("a@b..".data) ∧
    ("a@b..".data).count '@' = 1 ∧
    (get_ownername ("a@b..".data)).map trailingDots = some 2 := by
  refine ⟨by decide, by decide, ?_⟩
  have he : ("a@b..".data : List Char) = ['a'] ++ '@' :: "b..".data := by decide
  rw [he, get_ownername_eq_dot (by decide) (by decide) (by decide)]
  simp only [Option.map_some]
  congr 1


/-! ## Claim C10: reachability of the derivation's error branch -/

/-- C10 — confirmed.  `get_ownername` succeeds only on addresses with
exactly one `'@'`: any address with two or more `'@'` characters makes the
two-way destructuring of `email.split('@')` fail (`ValueError`), while the
validator `validate_uid` accepts such addresses (it only requires that
some `'@'` be present), so the error branch is reachable from the public
interface ("a@b@c" being a concrete witness). -/
theorem c10_error_branch_reachable :
    (∀ email : List Char, 2 ≤ email.count '@' → get_ownername email = none) ∧
    validate_uid ("a@b@c".data) = some ("a@b@c".data) ∧
    get_ownername ("a@b@c".data) = none := by
  refine ⟨?_, by decide, by decide⟩
  intro email h
  have hlen := pySplit_length '@' email
  rcases hsp : pySplit '@' email with _ | ⟨a, _ | ⟨b, _ | ⟨c, t⟩⟩⟩
  · exact absurd hsp (pySplit_ne_nil '@' email)
  · rw [hsp] at hlen
    simp at hlen
    omega
  · rw [hsp] at hlen
    simp at hlen
    omega
  · unfold get_ownername
    rw [hsp]

/-- C10 witness: the universally quantified part applied at `a@b@c`. -/
theorem c10_error_branch_reachable_witness :
    2 ≤ ("a@b@c".data).count '@' ∧ get_ownername ("a@b@c".data) = none :=
  ⟨by decide, c10_error_branch_reachable.1 ("a@b@c".data) (by decide)⟩


/-! ## Base64 and chunking lemmas (claim C2) -/

theorem b64Val_b64Char : ∀ m, m < 64 → b64Val (b64Char m) = m := by decide

theorem b64Char_ne_eq (n : Nat) : b64Char n ≠ '=' := by
  by_cases h : n < 64
  · exact (by decide : ∀ m, m < 64 → b64Char m ≠ '=') n h
  · unfold b64Char
    rw [List.getD_eq_default _ _ (by simp [b64Alphabet]; omega)]
    decide

theorem b64Char_ne_newline (n : Nat) : b64Char n ≠ '\n' := by
  by_cases h : n < 64
  · exact (by decide : ∀ m, m < 64 → b64Char m ≠ '\n') n h
  · unfold b64Char
    rw [List.getD_eq_default _ _ (by simp [b64Alphabet]; omega)]
    decide

theorem b64Encode_no_newline : ∀ (kd : List Nat), '\n' ∉ b64Encode kd := by
  have key : ∀ fuel kd, kd.length ≤ fuel → '\n' ∉ b64Encode kd := by
    intro fuel
    induction fuel with
    | zero =>
      intro kd hl
      rw [List.eq_nil_of_length_eq_zero (Nat.le_zero.mp hl)]
      simp [b64Encode]
    | succ f ih =>
      intro kd hl
      rcases kd with _ | ⟨a, _ | ⟨b, _ | ⟨c, rest⟩⟩⟩
      · simp [b64Encode]
      · simp [b64Encode]
        exact ⟨Ne.symm (b64Char_ne_newline _), Ne.symm (b64Char_ne_newline _)⟩
      · simp [b64Encode]
        exact ⟨Ne.symm (b64Char_ne_newline _), Ne.symm (b64Char_ne_newline _),
          Ne.symm (b64Char_ne_newline _)⟩
      · simp only [b64Encode, List.mem_cons, not_or]
        refine ⟨Ne.symm (b64Char_ne_newline _), Ne.symm (b64Char_ne_newline _),
          Ne.symm (b64Char_ne_newline _), Ne.symm (b64Char_ne_newline _), ?_⟩
        exact ih rest (by simp at hl; omega)
  exact fun kd => key kd.length kd le_rfl

/-- Base64 decoding inverts the encoding on byte lists. -/
theorem b64_roundtrip : ∀ (kd : List Nat), (∀ b ∈ kd, b < 256) →
    b64Decode (b64Encode kd) = kd := by
  have key : ∀ fuel kd, kd.length ≤ fuel → (∀ b ∈ kd, b < 256) →
      b64Decode (b64Encode kd) = kd := by
    intro fuel
    induction fuel with
    | zero =>
      intro kd hl _
      rw [List.eq_nil_of_length_eq_zero (Nat.le_zero.mp hl)]
      rfl
    | succ f ih =>
      intro kd hl hb
      rcases kd with _ | ⟨a, _ | ⟨b, _ | ⟨c, rest⟩⟩⟩
      · rfl
      · have ha : a < 256 := hb a (by simp)
        simp only [b64Encode, b64Decode]
        rw [if_pos trivial]
        rw [b64Val_b64Char _ (by omega), b64Val_b64Char _ (by omega)]
        congr 1
        omega
      · have ha : a < 256 := hb a (by simp)
        have hbb : b < 256 := hb b (by simp)
        simp only [b64Encode, b64Decode]
        rw [if_neg (b64Char_ne_eq _), if_pos trivial]
        rw [b64Val_b64Char _ (by omega), b64Val_b64Char _ (by omega),
          b64Val_b64Char _ (by omega)]
        congr 1
        · omega
        · congr 1
          omega
      · have ha : a < 256 := hb a (by simp)
        have hbb : b < 256 := hb b (by simp)
        have hc : c < 256 := hb c (by simp)
        simp only [b64Encode, b64Decode]
        rw [if_neg (b64Char_ne_eq _), if_neg (b64Char_ne_eq _)]
        rw [b64Val_b64Char _ (by omega), b64Val_b64Char _ (by omega),
          b64Val_b64Char _ (by omega), b64Val_b64Char _ (by omega)]
        have hrest : b64Decode (b64Encode rest) = rest := by
          refine ih rest (by simp at hl; omega) (fun x hx => hb x (by simp [hx]))
        rw [hrest]
        congr 1
        · omega
        · congr 1
          · omega
          · congr 1
            omega
  exact fun kd => key kd.length kd le_rfl

theorem stringchunks_eq_nil_iff {α : Type} (s : List α) (n : Nat) :
    stringchunks s n = [] ↔ s = [] ∨ n = 0 := by
  rw [stringchunks]
  by_cases h : s.isEmpty || n == 0
  · rw [if_pos h]
    simp only [Bool.or_eq_true, List.isEmpty_iff, beq_iff_eq] at h
    simp [h]
  · rw [if_neg h]
    simp only [Bool.or_eq_true, List.isEmpty_iff, beq_iff_eq] at h
    push_neg at h
    simp [h.1, h.2]

theorem stringchunks_flatten {α : Type} (s : List α) (n : Nat) (hn : 0 < n) :
    (stringchunks s n).flatten = s := by
  have key : ∀ fuel (s : List α), s.length ≤ fuel → (stringchunks s n).flatten = s := by
    intro fuel
    induction fuel with
    | zero =>
      intro s hl
      rw [List.eq_nil_of_length_eq_zero (Nat.le_zero.mp hl)]
      rw [stringchunks]
      simp
    | succ f ih =>
      intro s hl
      rcases eq_or_ne s [] with rfl | hne
      · rw [stringchunks]
        simp
      · rw [stringchunks, if_neg (by simp [hne]; omega)]
        rw [List.flatten_cons, ih (s.drop n) (by simp; omega)]
        exact List.take_append_drop n s
  exact key s.length s le_rfl

theorem stringchunks_dropLast_length {α : Type} (s : List α) (n : Nat) (hn : 0 < n) :
    ∀ c ∈ (stringchunks s n).dropLast, c.length = n := by
  have key : ∀ fuel (s : List α), s.length ≤ fuel →
      ∀ c ∈ (stringchunks s n).dropLast, c.length = n := by
    intro fuel
    induction fuel with
    | zero =>
      intro s hl
      rw [List.eq_nil_of_length_eq_zero (Nat.le_zero.mp hl)]
      rw [stringchunks]
      simp
    | succ f ih =>
      intro s hl c hc
      rcases eq_or_ne s [] with rfl | hne
      · rw [stringchunks] at hc
        simp at hc
      · rw [stringchunks, if_neg (by simp [hne]; omega)] at hc
        rcases eq_or_ne (stringchunks (s.drop n) n) [] with hrest | hrest
        · rw [hrest] at hc
          simp at hc
        · rw [List.dropLast_cons_of_ne_nil hrest, List.mem_cons] at hc
          rcases hc with rfl | hc
          · have hdrop : s.drop n ≠ [] := by
              intro hd
              exact hrest (((stringchunks_eq_nil_iff _ _).mpr (Or.inl hd)))
            have : n < s.length := by
              by_contra hcon
              exact hdrop (List.drop_eq_nil_of_le (by omega))
            simp [List.length_take]
            omega
          · exact ih (s.drop n) (by simp; omega) c hc
  exact key s.length s le_rfl

theorem stringchunks_mem_subset {α : Type} {s : List α} {n : Nat} :
    ∀ c ∈ stringchunks s n, ∀ x ∈ c, x ∈ s := by
  have key : ∀ fuel (s : List α), s.length ≤ fuel →
      ∀ c ∈ stringchunks s n, ∀ x ∈ c, x ∈ s := by
    intro fuel
    induction fuel with
    | zero =>
      intro s hl c hc
      rw [List.eq_nil_of_length_eq_zero (Nat.le_zero.mp hl), stringchunks] at hc
      simp at hc
    | succ f ih =>
      intro s hl c hc x hx
      rcases eq_or_ne s [] with rfl | hne
      · rw [stringchunks] at hc
        simp at hc
      · by_cases hn : n = 0
        · rw [stringchunks, if_pos (by simp [hn])] at hc
          simp at hc
        · rw [stringchunks, if_neg (by simp [hne, hn])] at hc
          rcases List.mem_cons.mp hc with rfl | hc
          · exact List.mem_of_mem_take hx
          · have := ih (s.drop n) (by simp; omega) c hc x hx
            exact List.mem_of_mem_drop this
  exact fun c hc x hx => key s.length s le_rfl c hc x hx


/-! ## Claim C2: typed-mode round trip -/

/-- Splitting the rendered chunk body (plus closing parenthesis) on
newlines recovers one line per chunk, each carrying the 18-space indent,
plus the final `")"` line. -/
theorem pySplit_chunkLines (chunks : List (List Char))
    (hnl : ∀ ch ∈ chunks, '\n' ∉ ch) :
    pySplit '\n' (chunkLines chunks ++ [')']) =
      chunks.map (fun c => indent18 ++ c) ++ [[')']] := by
  induction chunks with
  | nil =>
    simp only [chunkLines, List.map_nil, List.flatten_nil, List.nil_append]
    rw [pySplit_of_not_mem (by decide)]
  | cons c cs ih =>
    have hc : '\n' ∉ c := hnl c (by simp)
    have hcs : ∀ ch ∈ cs, '\n' ∉ ch := fun ch h => hnl ch (by simp [h])
    have hstep : chunkLines (c :: cs) ++ [')']
        = (indent18 ++ c) ++ '\n' :: (chunkLines cs ++ [')']) := by
      simp [chunkLines, List.append_assoc]
    have ha : '\n' ∉ indent18 ++ c := by
      intro hmem
      rcases List.mem_append.mp hmem with h | h
      · exact (by decide : '\n' ∉ indent18) h
      · exact hc h
    rw [hstep, pySplit_append_sep ha, ih hcs]
    simp

/-- The line decomposition of a typed-mode record: the header line, one
indented line per base64 chunk, and the `")"` line. -/
theorem typed_lines (owner : List Char) (keydata : List Nat) (hnl : '\n' ∉ owner) :
    pySplit '\n' (gen_rdata owner keydata false) =
      (owner ++ " IN OPENPGPKEY (".data) ::
        ((stringchunks (b64Encode keydata) 60).map (fun c => indent18 ++ c) ++ [[')']]) := by
  have hform : gen_rdata owner keydata false
      = (owner ++ " IN OPENPGPKEY (".data) ++ '\n' ::
          (chunkLines (stringchunks (b64Encode keydata) 60) ++ [')']) := by
    show owner ++ " IN OPENPGPKEY (\n".data ++ chunkLines _ ++ [')'] = _
    rw [show (" IN OPENPGPKEY (\n".data : List Char)
        = " IN OPENPGPKEY (".data ++ ['\n'] from by decide]
    simp [List.append_assoc]
  have hown : '\n' ∉ owner ++ " IN OPENPGPKEY (".data := by
    intro hmem
    rcases List.mem_append.mp hmem with h | h
    · exact hnl h
    · exact (by decide : '\n' ∉ (" IN OPENPGPKEY (".data : List Char)) h
  rw [hform, pySplit_append_sep hown,
    pySplit_chunkLines _
      (fun ch hch hx => b64Encode_no_newline keydata (stringchunks_mem_subset ch hch '\n' hx))]

/-- The claim's extraction recipe: drop the header line and the closing
parenthesis line, strip the 18-space indent of each remaining line. -/
def strippedBodyLines (out : List Char) : List (List Char) :=
  (((pySplit '\n' out).drop 1).dropLast).map (fun l => l.drop 18)

/-- C2 — confirmed.  For any byte sequence whose length is one of 0, 1,
59, 60, 61, 1000 (the proof in fact needs no length restriction), base64-
decoding the concatenation of the typed-mode record's body lines — header
and closing-parenthesis lines removed, 18-space indentation stripped —
reproduces the bytes exactly, and every body line except possibly the last
carries exactly 60 characters of encoded text. -/
theorem c2_typed_roundtrip (keydata : List Nat) (owner : List Char)
    (hbytes : ∀ b ∈ keydata, b < 256)
    (hlen : keydata.length ∈ ([0, 1, 59, 60, 61, 1000] : List Nat))
    (hnl : '\n' ∉ owner) :
    b64Decode (strippedBodyLines (gen_rdata owner keydata false)).flatten = keydata ∧
    (∀ l ∈ (strippedBodyLines (gen_rdata owner keydata false)).dropLast, l.length = 60) := by
  have hdrop : ∀ c : List Char, (indent18 ++ c).drop 18 = c := fun c => by
    rw [show (18 : Nat) = indent18.length from by decide, List.drop_left]
  have hbody : strippedBodyLines (gen_rdata owner keydata false)
      = stringchunks (b64Encode keydata) 60 := by
    unfold strippedBodyLines
    rw [typed_lines owner keydata hnl]
    simp only [List.drop_succ_cons, List.drop_zero]
    rw [List.dropLast_concat, List.map_map]
    have hcomp : (fun l => List.drop 18 l) ∘ (fun c => indent18 ++ c) = id := by
      funext c
      exact hdrop c
    rw [hcomp, List.map_id]
  constructor
  · rw [hbody, stringchunks_flatten _ 60 (by omega), b64_roundtrip keydata hbytes]
  · rw [hbody]
    exact stringchunks_dropLast_length _ 60 (by omega)

/-- C2 witness: the round trip at the concrete byte list `[5]` (length 1)
and owner `o.`. -/
theorem c2_typed_roundtrip_witness :
    b64Decode (strippedBodyLines (gen_rdata ("o.".data) [5] false)).flatten = [5] ∧
    (∀ l ∈ (strippedBodyLines (gen_rdata ("o.".data) [5] false)).dropLast, l.length = 60) :=
  c2_typed_roundtrip [5] ("o.".data) (by decide) (by decide) (by decide)


/-! ## Claim C4: generic-mode formatting -/

theorem hexVal_nibbleChar : ∀ m, m < 16 → hexVal (nibbleChar m) = m := by decide

/-- Hex decoding inverts the encoding on byte lists. -/
theorem hex_roundtrip : ∀ (bs : List Nat), (∀ b ∈ bs, b < 256) →
    hexDecode (hexEncode bs) = bs := by
  intro bs
  induction bs with
  | nil => intro _; rfl
  | cons b rest ih =>
    intro hb
    have hblt : b < 256 := hb b (by simp)
    simp only [hexEncode, hexDecode]
    rw [hexVal_nibbleChar _ (by omega), hexVal_nibbleChar _ (by omega),
      ih (fun x hx => hb x (by simp [hx]))]
    congr 1
    omega

theorem hexEncode_no_newline (bs : List Nat) : '\n' ∉ hexEncode bs := by
  intro hmem
  have := hexEncode_lower_hex '\n' hmem
  exact absurd this (by decide)

theorem decimalDigits_all_digits : ∀ n, ∀ c ∈ decimalDigits n, c.isDigit = true := by
  have key : ∀ fuel n, n ≤ fuel → ∀ c ∈ decimalDigits n, c.isDigit = true := by
    intro fuel
    induction fuel with
    | zero =>
      intro n hn c hc
      rw [Nat.le_zero.mp hn] at hc
      rw [decimalDigits] at hc
      simp at hc
      subst hc
      decide
    | succ f ih =>
      intro n hn c hc
      rw [decimalDigits] at hc
      by_cases h : n < 10
      · rw [dif_pos h] at hc
        simp at hc
        subst hc
        exact (by decide : ∀ m, m < 10 → (nibbleChar m).isDigit = true) n h
      · rw [dif_neg h] at hc
        rcases List.mem_append.mp hc with hc | hc
        · exact ih (n / 10) (by omega) c hc
        · simp at hc
          subst hc
          exact (by decide : ∀ m, m < 10 → (nibbleChar m).isDigit = true) _
            (Nat.mod_lt _ (by omega))
  exact fun n => key n n le_rfl

theorem decimalDigits_no_newline (n : Nat) : '\n' ∉ decimalDigits n := by
  intro hmem
  have := decimalDigits_all_digits n '\n' hmem
  exact absurd this (by decide)

theorem digitsVal_append_one (a : List Char) (c : Char) :
    digitsVal (a ++ [c]) = digitsVal a * 10 + (c.toNat - 48) := by
  simp [digitsVal, List.foldl_append]

/-- The byte-length field really is the decimal representation: reading it
back as a decimal number gives the byte count. -/
theorem digitsVal_decimalDigits : ∀ n, digitsVal (decimalDigits n) = n := by
  have key : ∀ fuel n, n ≤ fuel → digitsVal (decimalDigits n) = n := by
    intro fuel
    induction fuel with
    | zero =>
      intro n hn
      rw [Nat.le_zero.mp hn, decimalDigits, dif_pos (by omega : (0 : Nat) < 10)]
      decide
    | succ f ih =>
      intro n hn
      rw [decimalDigits]
      by_cases h : n < 10
      · rw [dif_pos h]
        exact (by decide : ∀ m, m < 10 → digitsVal [nibbleChar m] = m) n h
      · rw [dif_neg h, digitsVal_append_one, ih (n / 10) (by omega)]
        have : (nibbleChar (n % 10)).toNat - 48 = n % 10 :=
          (by decide : ∀ m, m < 10 → (nibbleChar m).toNat - 48 = m) _
            (Nat.mod_lt _ (by omega))
        omega
  exact fun n => key n n le_rfl


/-- The line decomposition of a generic-mode record: there is no newline
after the opening parenthesis, so the first hex chunk (when any) sits on
the header line; later chunks get their own lines; the closing `")"`
stands alone only when there was at least one chunk. -/
theorem generic_lines (owner : List Char) (keydata : List Nat) (hnl : '\n' ∉ owner) :
    pySplit '\n' (gen_rdata owner keydata true) =
      match stringchunks (hexEncode keydata) 60 with
      | [] =>
        [(owner ++ " IN TYPE61 \\# ".data ++ decimalDigits keydata.length ++ " (".data)
          ++ [')']]
      | c1 :: cs =>
        ((owner ++ " IN TYPE61 \\# ".data ++ decimalDigits keydata.length ++ " (".data)
            ++ indent18 ++ c1)
          :: (cs.map (fun c => indent18 ++ c) ++ [[')']]) := by
  have hH : '\n' ∉ owner ++ " IN TYPE61 \\# ".data ++ decimalDigits keydata.length
      ++ " (".data := by
    intro hmem
    rcases List.mem_append.mp hmem with hmem | h
    · rcases List.mem_append.mp hmem with hmem | h
      · rcases List.mem_append.mp hmem with h | h
        · exact hnl h
        · exact (by decide : '\n' ∉ (" IN TYPE61 \\# ".data : List Char)) h
      · exact decimalDigits_no_newline _ h
    · exact (by decide : '\n' ∉ (" (".data : List Char)) h
  have hnlch : ∀ ch ∈ stringchunks (hexEncode keydata) 60, '\n' ∉ ch :=
    fun ch h hx => hexEncode_no_newline keydata (stringchunks_mem_subset ch h '\n' hx)
  rcases hch : stringchunks (hexEncode keydata) 60 with _ | ⟨c1, cs⟩
  · have hform : gen_rdata owner keydata true
        = (owner ++ " IN TYPE61 \\# ".data ++ decimalDigits keydata.length ++ " (".data)
          ++ [')'] := by
      show owner ++ " IN TYPE61 \\# ".data ++ decimalDigits keydata.length ++ " (".data
          ++ chunkLines (stringchunks (hexEncode keydata) 60) ++ [')'] = _
      rw [hch]
      simp [chunkLines]
    rw [hform]
    apply pySplit_of_not_mem
    intro hmem
    rcases List.mem_append.mp hmem with h | h
    · exact hH h
    · exact (by decide : '\n' ∉ ([')'] : List Char)) h
  · rw [hch] at hnlch
    have hc1 : '\n' ∉ c1 := hnlch c1 (by simp)
    have hcs : ∀ ch ∈ cs, '\n' ∉ ch := fun ch h => hnlch ch (by simp [h])
    have hform : gen_rdata owner keydata true
        = ((owner ++ " IN TYPE61 \\# ".data ++ decimalDigits keydata.length ++ " (".data)
            ++ indent18 ++ c1)
          ++ '\n' :: (chunkLines cs ++ [')']) := by
      show owner ++ " IN TYPE61 \\# ".data ++ decimalDigits keydata.length ++ " (".data
          ++ chunkLines (stringchunks (hexEncode keydata) 60) ++ [')'] = _
      rw [hch]
      simp [chunkLines, List.append_assoc]
    have ha : '\n' ∉ (owner ++ " IN TYPE61 \\# ".data ++ decimalDigits keydata.length
        ++ " (".data) ++ indent18 ++ c1 := by
      intro hmem
      rcases List.mem_append.mp hmem with hmem | h
      · rcases List.mem_append.mp hmem with h | h
        · exact hH h
        · exact (by decide : '\n' ∉ indent18) h
      · exact hc1 h
    rw [hform, pySplit_append_sep ha, pySplit_chunkLines cs hcs]

/-- C4 — corrected.  In generic mode the header is
`<owner> IN TYPE61 \# <byte-length> (` with `<byte-length>` the decimal
count of raw input bytes before hex encoding, and the body is the hex
encoding split into 60-character indented chunks — but the header is NOT
followed by a newline, so the first chunk (when the input is nonempty)
continues on the header line rather than standing on its own line, and for
empty input the closing `")"` shares the header line too; each later chunk
is on its own line and every chunk except possibly the last holds exactly
60 hex characters.  (The original claim's "each chunk on its own line
after the header" is refuted by `c4_generic_rdata_counterexample`.) -/
theorem c4_generic_rdata (owner : List Char) (keydata : List Nat)
    (hnl : '\n' ∉ owner) (hbytes : ∀ b ∈ keydata, b < 256) :
    (digitsVal (decimalDigits keydata.length) = keydata.length ∧
      ∀ c ∈ decimalDigits keydata.length, c.isDigit = true) ∧
    pySplit '\n' (gen_rdata owner keydata true) =
      (match stringchunks (hexEncode keydata) 60 with
      | [] =>
        [(owner ++ " IN TYPE61 \\# ".data ++ decimalDigits keydata.length ++ " (".data)
          ++ [')']]
      | c1 :: cs =>
        ((owner ++ " IN TYPE61 \\# ".data ++ decimalDigits keydata.length ++ " (".data)
            ++ indent18 ++ c1)
          :: (cs.map (fun c => indent18 ++ c) ++ [[')']])) ∧
    (stringchunks (hexEncode keydata) 60).flatten = hexEncode keydata ∧
    hexDecode (hexEncode keydata) = keydata ∧
    (∀ l ∈ (stringchunks (hexEncode keydata) 60).dropLast, l.length = 60) :=
  ⟨⟨digitsVal_decimalDigits _, decimalDigits_all_digits _⟩,
   generic_lines owner keydata hnl,
   stringchunks_flatten _ 60 (by omega),
   hex_roundtrip keydata hbytes,
   stringchunks_dropLast_length _ 60 (by omega)⟩

/-- C4 witness: the corrected generic-mode statement at owner `o.` and
bytes `[1, 2, 3]`. -/
theorem c4_generic_rdata_witness :
    (digitsVal (decimalDigits ([1, 2, 3] : List Nat).length) = ([1, 2, 3] : List Nat).length ∧
      ∀ c ∈ decimalDigits ([1, 2, 3] : List Nat).length, c.isDigit = true) ∧
    pySplit '\n' (gen_rdata ("o.".data) [1, 2, 3] true) =
      (match stringchunks (hexEncode [1, 2, 3]) 60 with
      | [] =>
        [("o.".data ++ " IN TYPE61 \\# ".data ++ decimalDigits ([1, 2, 3] : List Nat).length
            ++ " (".data) ++ [')']]
      | c1 :: cs =>
        (("o.".data ++ " IN TYPE61 \\# ".data ++ decimalDigits ([1, 2, 3] : List Nat).length
            ++ " (".data) ++ indent18 ++ c1)
          :: (cs.map (fun c => indent18 ++ c) ++ [[')']])) ∧
    (stringchunks (hexEncode [1, 2, 3]) 60).flatten = hexEncode [1, 2, 3] ∧
    hexDecode (hexEncode [1, 2, 3]) = [1, 2, 3] ∧
    (∀ l ∈ (stringchunks (hexEncode [1, 2, 3]) 60).dropLast, l.length = 60) :=
  c4_generic_rdata ("o.".data) [1, 2, 3] (by decide) (by decide)

set_option maxRecDepth 4000 in
unseal stringchunks decimalDigits in
/-- C4 counterexample: with owner `o.` and bytes `[1, 2, 3]` the first
line of the generic-mode output is the header with the first hex chunk
appended on the same line, not the bare header the claim describes. -/
theorem c4_generic_rdata_counterexample :
    (pySplit '\n' (gen_rdata ("o.".data) [1, 2, 3] true)).head? =
      some ("o. IN TYPE61 \\# 3 (                  010203".data) ∧
    (pySplit '\n' (gen_rdata ("o.".data) [1, 2, 3] true)).head? ≠
      some ("o. IN TYPE61 \\# 3 (".data) := by
  constructor
  · decide
  · decide


/-! ## Parser claims: definitions

`parse_key` is settled through a characterization of its line loop.  The
definitions below name the record-type tests, the listing-level
well-formedness that rules out the `IndexError`/`ValueError` crashes, the
record-sequencing violations of the spec's error policy, and the
document-order summaries (identity bindings in order; the last fingerprint
seen in the primary key's context). -/

/-- First colon-delimited field of a line. -/
def rectypeOf (line : List Char) : List Char :=
  (pySplit ':' line).headD []

/-- Whether the line is a `pub` record. -/
def isPubLine (l : List Char) : Bool := rectypeOf l == "pub".data

/-- Whether the line is a `uid` record. -/
def isUidLine (l : List Char) : Bool := rectypeOf l == "uid".data

/-- Whether the line is a `sub` record. -/
def isSubLine (l : List Char) : Bool := rectypeOf l == "sub".data

/-- Whether the line is a `fpr` record. -/
def isFprLine (l : List Char) : Bool := rectypeOf l == "fpr".data

/-- A line that `parse_key` can process without raising: `pub`/`sub`
records carry at least 12 fields with numeric key length, algorithm and
creation date; `uid`/`fpr` records carry at least 10 fields.  (gpg's
`--with-colons` output always satisfies this.) -/
def wellFormedLine (line : List Char) : Bool :=
  if isPubLine line || isSubLine line then
    decide (12 ≤ (pySplit ':' line).length)
      && isIntLit ((pySplit ':' line).getD 3 [])
      && isIntLit ((pySplit ':' line).getD 2 [])
      && isFloatLit ((pySplit ':' line).getD 5 [])
  else if isUidLine line || isFprLine line then
    decide (10 ≤ (pySplit ':' line).length)
  else true

/-- A single line violates the record-sequencing policy, given whether a
`pub` record has already been seen. -/
def stepViol (seen : Bool) (l : List Char) : Bool :=
  (isPubLine l && seen) || ((isUidLine l || isSubLine l || isFprLine l) && !seen)

/-- Some line of the listing violates the record-sequencing policy: a
second `pub`, or a `uid`/`sub`/`fpr` before any `pub`. -/
def seqViolation : Bool → List (List Char) → Bool
  | _, [] => false
  | seen, l :: rest => stepViol seen l || seqViolation (seen || isPubLine l) rest

/-- The parser-state invariant: `pubkeySeen` tracks whether the primary
key exists, and when `currentKey` points at a subkey the primary key has
at least one. -/
def StInv (st : PState) : Prop :=
  st.pubkeySeen = st.p.isSome ∧
  (st.curIsSub = true → ∃ p, st.p = some p ∧ p.subkeys ≠ [])

/-- The identity-binding pairs contributed by the `uid` records of some
lines, in document order. -/
def uidsOf (lines : List (List Char)) : List (List Char × List Char) :=
  lines.filterMap (fun l =>
    if isUidLine l then ((pySplit ':' l).get? 9).map parseaddr else none)

/-- The fingerprint the primary key ends up with after processing `lines`
from a state whose `currentKey` status is the first argument: while the
primary key is current, each `fpr` record overwrites the fingerprint; the
first `sub` record moves the context away for good. -/
def primFprFrom : Bool → Option (List Char) → List (List Char) → Option (List Char)
  | true, f0, _ => f0
  | false, f0, [] => f0
  | false, f0, l :: rest =>
    if isSubLine l then f0
    else if isFprLine l then
      primFprFrom false
        (match (pySplit ':' l).get? 9 with
         | some fp => some fp
         | none => f0) rest
    else primFprFrom false f0 rest

/-- The primary key's final fingerprint, read off the listing: the last
`fpr` record after the `pub` record and before the first `sub` record. -/
def primaryFprOfListing : List (List Char) → Option (List Char)
  | [] => none
  | l :: rest =>
    if isPubLine l then primFprFrom false none rest else primaryFprOfListing rest

/-- Whether `parse_key` ended in an `error_quit` call. -/
def isParseQuit : Except PErr (Option PKey) → Bool
  | .error (.quit _ _) => true
  | _ => false

/-- Whether `parse_key` ended in an uncaught Python exception. -/
def isParseCrash : Except PErr (Option PKey) → Bool
  | .error (.crash _) => true
  | _ => false

/-- Whether `parse_key` returned a primary key. -/
def parseOkSome : Except PErr (Option PKey) → Bool
  | .ok (some _) => true
  | _ => false

/-- The returned primary key's fingerprint (used to state claim C6). -/
def parsedPrimaryFpr : Except PErr (Option PKey) → Option (List Char)
  | .ok (some k) => k.fingerprint
  | _ => none


/-! ## Step lemmas: `parseLine` by record type -/

theorem parseLine_tru (keydata : List Nat) (st : PState) (l : List Char)
    (h : rectypeOf l = "tru".data) :
    parseLine keydata st l = .ok st := by
  unfold rectypeOf at h
  simp only [parseLine, h, if_pos]

theorem parseLine_other (keydata : List Nat) (st : PState) (l : List Char)
    (h1 : rectypeOf l ≠ "tru".data) (h2 : rectypeOf l ≠ "pub".data)
    (h3 : rectypeOf l ≠ "uid".data) (h4 : rectypeOf l ≠ "sub".data)
    (h5 : rectypeOf l ≠ "fpr".data) :
    parseLine keydata st l = .ok st := by
  unfold rectypeOf at h1 h2 h3 h4 h5
  simp only [parseLine, h1, h2, h3, h4, h5, if_neg, if_false]

theorem parseLine_pub_seen (keydata : List Nat) (st : PState) (l : List Char)
    (h : rectypeOf l = "pub".data) (hs : st.pubkeySeen = true) :
    parseLine keydata st l = .error (.quit 11 ("more than one public key given.")) := by
  unfold rectypeOf at h
  simp only [parseLine, h, hs]
  rw [if_neg (by decide)]
  simp

theorem parseLine_pub_short (keydata : List Nat) (st : PState) (l : List Char)
    (h : rectypeOf l = "pub".data) (hs : st.pubkeySeen = false)
    (hlen : (pySplit ':' l).length < 12) :
    parseLine keydata st l
      = .error (.crash ("ValueError: unpacking parts of a short pub line")) := by
  unfold rectypeOf at h
  simp only [parseLine, h, hs, hlen]
  rw [if_neg (by decide)]
  simp

theorem parseLine_pub_badnum (keydata : List Nat) (st : PState) (l : List Char)
    (h : rectypeOf l = "pub".data) (hs : st.pubkeySeen = false)
    (hlen : ¬(pySplit ':' l).length < 12)
    (hmk : mkOpenPGPKey ((pySplit ':' l).getD 4 []) ((pySplit ':' l).getD 3 [])
        ((pySplit ':' l).getD 2 []) ((pySplit ':' l).getD 11 [])
        ((pySplit ':' l).getD 5 []) (some keydata) = none) :
    parseLine keydata st l = .error (.crash ("ValueError: non-numeric pub field")) := by
  unfold rectypeOf at h
  simp only [parseLine, h, hs, hlen, hmk]
  rw [if_neg (by decide)]
  simp

theorem parseLine_pub_new (keydata : List Nat) (st : PState) (l : List Char) (p0 : PKey)
    (h : rectypeOf l = "pub".data) (hs : st.pubkeySeen = false)
    (hlen : ¬(pySplit ':' l).length < 12)
    (hmk : mkOpenPGPKey ((pySplit ':' l).getD 4 []) ((pySplit ':' l).getD 3 [])
        ((pySplit ':' l).getD 2 []) ((pySplit ':' l).getD 11 [])
        ((pySplit ':' l).getD 5 []) (some keydata) = some p0) :
    parseLine keydata st l = .ok ⟨some p0, true, false⟩ := by
  unfold rectypeOf at h
  simp only [parseLine, h, hs, hlen, hmk]
  rw [if_neg (by decide)]
  simp

theorem parseLine_uid_crash (keydata : List Nat) (st : PState) (l : List Char)
    (h : rectypeOf l = "uid".data) (hu : (pySplit ':' l).get? 9 = none) :
    parseLine keydata st l
      = .error (.crash ("IndexError: uid line with fewer than 10 fields")) := by
  unfold rectypeOf at h
  simp only [parseLine, h, hu]
  rw [if_neg (by decide), if_neg (by decide)]
  simp

theorem parseLine_uid_nopub (keydata : List Nat) (st : PState) (l : List Char) (u : List Char)
    (h : rectypeOf l = "uid".data) (hu : (pySplit ':' l).get? 9 = some u)
    (hp : st.p = none) :
    parseLine keydata st l
      = .error (.quit 11 ("uid found without preceding pubkey.")) := by
  unfold rectypeOf at h
  simp only [parseLine, h, hu, hp]
  rw [if_neg (by decide), if_neg (by decide)]
  simp

theorem parseLine_uid_ok (keydata : List Nat) (st : PState) (l : List Char)
    (u : List Char) (p : PKey)
    (h : rectypeOf l = "uid".data) (hu : (pySplit ':' l).get? 9 = some u)
    (hp : st.p = some p) :
    parseLine keydata st l = .ok { st with p := some (addUid p u) } := by
  unfold rectypeOf at h
  simp only [parseLine, h, hu, hp]
  rw [if_neg (by decide), if_neg (by decide)]
  simp

theorem parseLine_sub_nopub (keydata : List Nat) (st : PState) (l : List Char)
    (h : rectypeOf l = "sub".data) (hs : st.pubkeySeen = false) :
    parseLine keydata st l
      = .error (.quit 11 ("subkey without preceding pubkey.")) := by
  unfold rectypeOf at h
  simp only [parseLine, h, hs]
  rw [if_neg (by decide), if_neg (by decide), if_neg (by decide)]
  simp

theorem parseLine_sub_short (keydata : List Nat) (st : PState) (l : List Char)
    (h : rectypeOf l = "sub".data) (hs : st.pubkeySeen = true)
    (hlen : (pySplit ':' l).length < 12) :
    parseLine keydata st l
      = .error (.crash ("ValueError: unpacking parts of a short sub line")) := by
  unfold rectypeOf at h
  simp only [parseLine, h, hs, hlen]
  rw [if_neg (by decide), if_neg (by decide), if_neg (by decide)]
  simp

theorem parseLine_sub_badnum (keydata : List Nat) (st : PState) (l : List Char)
    (h : rectypeOf l = "sub".data) (hs : st.pubkeySeen = true)
    (hlen : ¬(pySplit ':' l).length < 12)
    (hmk : mkOpenPGPKey ((pySplit ':' l).getD 4 []) ((pySplit ':' l).getD 3 [])
        ((pySplit ':' l).getD 2 []) ((pySplit ':' l).getD 11 [])
        ((pySplit ':' l).getD 5 []) none = none) :
    parseLine keydata st l = .error (.crash ("ValueError: non-numeric sub field")) := by
  unfold rectypeOf at h
  simp only [parseLine, h, hs, hlen, hmk]
  rw [if_neg (by decide), if_neg (by decide), if_neg (by decide)]
  simp

theorem parseLine_sub_noprim (keydata : List Nat) (st : PState) (l : List Char) (s : PKey)
    (h : rectypeOf l = "sub".data) (hs : st.pubkeySeen = true)
    (hlen : ¬(pySplit ':' l).length < 12)
    (hmk : mkOpenPGPKey ((pySplit ':' l).getD 4 []) ((pySplit ':' l).getD 3 [])
        ((pySplit ':' l).getD 2 []) ((pySplit ':' l).getD 11 [])
        ((pySplit ':' l).getD 5 []) none = some s)
    (hp : st.p = none) :
    parseLine keydata st l = .error (.crash ("AttributeError: subkey with no primary")) := by
  unfold rectypeOf at h
  simp only [parseLine, h, hs, hlen, hmk, hp]
  rw [if_neg (by decide), if_neg (by decide), if_neg (by decide)]
  simp

theorem parseLine_sub_ok (keydata : List Nat) (st : PState) (l : List Char) (s p : PKey)
    (h : rectypeOf l = "sub".data) (hs : st.pubkeySeen = true)
    (hlen : ¬(pySplit ':' l).length < 12)
    (hmk : mkOpenPGPKey ((pySplit ':' l).getD 4 []) ((pySplit ':' l).getD 3 [])
        ((pySplit ':' l).getD 2 []) ((pySplit ':' l).getD 11 [])
        ((pySplit ':' l).getD 5 []) none = some s)
    (hp : st.p = some p) :
    parseLine keydata st l
      = .ok { st with p := some { p with subkeys := p.subkeys ++ [s] }, curIsSub := true } := by
  unfold rectypeOf at h
  simp only [parseLine, h, hs, hlen, hmk, hp]
  rw [if_neg (by decide), if_neg (by decide), if_neg (by decide)]
  simp

theorem parseLine_fpr_crash (keydata : List Nat) (st : PState) (l : List Char)
    (h : rectypeOf l = "fpr".data) (hu : (pySplit ':' l).get? 9 = none) :
    parseLine keydata st l
      = .error (.crash ("IndexError: fpr line with fewer than 10 fields")) := by
  unfold rectypeOf at h
  simp only [parseLine, h, hu]
  rw [if_neg (by decide), if_neg (by decide), if_neg (by decide), if_neg (by decide)]
  simp

theorem parseLine_fpr_nopub (keydata : List Nat) (st : PState) (l : List Char) (fp : List Char)
    (h : rectypeOf l = "fpr".data) (hu : (pySplit ':' l).get? 9 = some fp)
    (hp : st.p = none) :
    parseLine keydata st l
      = .error (.quit 11 ("fpr found without preceding pubkey.")) := by
  unfold rectypeOf at h
  simp only [parseLine, h, hu, hp]
  rw [if_neg (by decide), if_neg (by decide), if_neg (by decide), if_neg (by decide)]
  simp

theorem parseLine_fpr_sub (keydata : List Nat) (st : PState) (l : List Char)
    (fp : List Char) (p : PKey)
    (h : rectypeOf l = "fpr".data) (hu : (pySplit ':' l).get? 9 = some fp)
    (hp : st.p = some p) (hcur : st.curIsSub = true) :
    parseLine keydata st l
      = .ok { st with p := some { p with subkeys := setLastSubFpr fp p.subkeys } } := by
  unfold rectypeOf at h
  simp only [parseLine, h, hu, hp, hcur]
  rw [if_neg (by decide), if_neg (by decide), if_neg (by decide), if_neg (by decide)]
  simp

theorem parseLine_fpr_prim (keydata : List Nat) (st : PState) (l : List Char)
    (fp : List Char) (p : PKey)
    (h : rectypeOf l = "fpr".data) (hu : (pySplit ':' l).get? 9 = some fp)
    (hp : st.p = some p) (hcur : st.curIsSub = false) :
    parseLine keydata st l
      = .ok { st with p := some { p with fingerprint := some fp } } := by
  unfold rectypeOf at h
  simp only [parseLine, h, hu, hp, hcur]
  rw [if_neg (by decide), if_neg (by decide), if_neg (by decide), if_neg (by decide)]
  simp


/-! ## Parser invariant preservation -/

theorem setLastSubFpr_ne_nil (fp : List Char) (l : List PKey) (h : l ≠ []) :
    setLastSubFpr fp l ≠ [] := by
  cases l with
  | nil => exact absurd rfl h
  | cons s rest =>
    cases rest <;> simp [setLastSubFpr]

theorem mkOpenPGPKey_shape {a b c d e : List Char} {kd : Option (List Nat)} {p : PKey}
    (h : mkOpenPGPKey a b c d e kd = some p) :
    p.uidlist = [] ∧ p.subkeys = [] ∧ p.fingerprint = none := by
  unfold mkOpenPGPKey at h
  by_cases hc : (isIntLit b && isIntLit c && isFloatLit e) = true
  · rw [if_pos hc] at h
    injection h with h
    subst h
    exact ⟨rfl, rfl, rfl⟩
  · rw [if_neg hc] at h
    simp at h

theorem wf_pub_sub {l : List Char} (hwf : wellFormedLine l = true)
    (hps : (isPubLine l || isSubLine l) = true) :
    ¬(pySplit ':' l).length < 12 ∧
    (isIntLit ((pySplit ':' l).getD 3 []) && isIntLit ((pySplit ':' l).getD 2 [])
      && isFloatLit ((pySplit ':' l).getD 5 [])) = true := by
  unfold wellFormedLine at hwf
  rw [if_pos hps] at hwf
  simp only [Bool.and_eq_true, decide_eq_true_eq] at hwf
  refine ⟨by omega, ?_⟩
  simp only [Bool.and_eq_true]
  exact ⟨⟨hwf.1.1.2, hwf.1.2⟩, hwf.2⟩

theorem wf_get9 {l : List Char} (hwf : wellFormedLine l = true)
    (huf : (isUidLine l || isFprLine l) = true)
    (hnps : (isPubLine l || isSubLine l) = false) :
    ∃ u, (pySplit ':' l).get? 9 = some u := by
  unfold wellFormedLine at hwf
  rw [if_neg (by simp [hnps]), if_pos huf] at hwf
  simp only [decide_eq_true_eq] at hwf
  have h9 : 9 < (pySplit ':' l).length := by omega
  exact ⟨_, List.get?_eq_get h9⟩

/-- One parser step from an invariant-satisfying state on a well-formed
line: a sequencing violation produces exactly an `error_quit`, and
otherwise the step succeeds, preserves the invariant, and records whether
the line was the `pub` record. -/
theorem parseLine_step (keydata : List Nat) (st : PState) (l : List Char)
    (hinv : StInv st) (hwf : wellFormedLine l = true) :
    (stepViol st.pubkeySeen l = true ∧
       ∃ m, parseLine keydata st l = .error (.quit 11 m)) ∨
    (stepViol st.pubkeySeen l = false ∧
       ∃ st2, parseLine keydata st l = .ok st2 ∧ StInv st2 ∧
         st2.pubkeySeen = (st.pubkeySeen || isPubLine l)) := by
  by_cases htru : rectypeOf l = "tru".data
  · have hpub : isPubLine l = false := by unfold isPubLine; rw [htru]; decide
    have huid : isUidLine l = false := by unfold isUidLine; rw [htru]; decide
    have hsub : isSubLine l = false := by unfold isSubLine; rw [htru]; decide
    have hfpr : isFprLine l = false := by unfold isFprLine; rw [htru]; decide
    refine Or.inr ⟨by simp [stepViol, hpub, huid, hsub, hfpr], st,
      parseLine_tru keydata st l htru, hinv, by simp [hpub]⟩
  by_cases hpub : rectypeOf l = "pub".data
  · have hpubT : isPubLine l = true := by unfold isPubLine; rw [hpub]; decide
    have huid : isUidLine l = false := by unfold isUidLine; rw [hpub]; decide
    have hsub : isSubLine l = false := by unfold isSubLine; rw [hpub]; decide
    have hfpr : isFprLine l = false := by unfold isFprLine; rw [hpub]; decide
    rcases hs : st.pubkeySeen with _ | _
    · obtain ⟨hlen, hcond⟩ := wf_pub_sub hwf (by simp [hpubT])
      have hmk : mkOpenPGPKey ((pySplit ':' l).getD 4 []) ((pySplit ':' l).getD 3 [])
          ((pySplit ':' l).getD 2 []) ((pySplit ':' l).getD 11 [])
          ((pySplit ':' l).getD 5 []) (some keydata)
          = some ⟨(pySplit ':' l).getD 4 [], none, pyInt ((pySplit ':' l).getD 3 []),
              pyInt ((pySplit ':' l).getD 2 []), (pySplit ':' l).getD 11 [],
              (pySplit ':' l).getD 5 [],
              if keydata.isEmpty then none else some keydata, [], []⟩ := by
        unfold mkOpenPGPKey
        rw [if_pos hcond]
      refine Or.inr ⟨by simp [stepViol, hpubT, huid, hsub, hfpr, hs], _,
        parseLine_pub_new keydata st l _ hpub hs hlen hmk, ⟨by simp, by simp⟩,
        by simp [hpubT, hs]⟩
    · exact Or.inl ⟨by simp [stepViol, hpubT, hs],
        _, parseLine_pub_seen keydata st l hpub hs⟩
  by_cases huid : rectypeOf l = "uid".data
  · have hpubF : isPubLine l = false := by unfold isPubLine; rw [huid]; decide
    have huidT : isUidLine l = true := by unfold isUidLine; rw [huid]; decide
    have hsub : isSubLine l = false := by unfold isSubLine; rw [huid]; decide
    have hfpr : isFprLine l = false := by unfold isFprLine; rw [huid]; decide
    obtain ⟨u, hu⟩ := wf_get9 hwf (by simp [huidT]) (by simp [hpubF, hsub])
    rcases hs : st.pubkeySeen with _ | _
    · have hp : st.p = none := by
        have h1 := hinv.1
        rw [hs] at h1
        exact Option.not_isSome_iff_eq_none.mp (by simp [← h1])
      exact Or.inl ⟨by simp [stepViol, hpubF, huidT, hs],
        _, parseLine_uid_nopub keydata st l u huid hu hp⟩
    · have hps : st.p.isSome = true := by rw [← hinv.1, hs]
      obtain ⟨p, hp⟩ := Option.isSome_iff_exists.mp hps
      refine Or.inr ⟨by simp [stepViol, hpubF, huidT, hsub, hfpr, hs],
        { st with p := some (addUid p u) },
        parseLine_uid_ok keydata st l u p huid hu hp, ⟨?_, ?_⟩, ?_⟩
      · exact hs
      · intro hcur
        obtain ⟨p', hp', hne⟩ := hinv.2 hcur
        rw [hp] at hp'
        injection hp' with hp'
        subst hp'
        exact ⟨_, rfl, by simpa [addUid] using hne⟩
      · simp [hpubF, hs]
  by_cases hsub : rectypeOf l = "sub".data
  · have hpubF : isPubLine l = false := by unfold isPubLine; rw [hsub]; decide
    have huidF : isUidLine l = false := by unfold isUidLine; rw [hsub]; decide
    have hsubT : isSubLine l = true := by unfold isSubLine; rw [hsub]; decide
    have hfpr : isFprLine l = false := by unfold isFprLine; rw [hsub]; decide
    rcases hs : st.pubkeySeen with _ | _
    · exact Or.inl ⟨by simp [stepViol, hpubF, huidF, hsubT, hs],
        _, parseLine_sub_nopub keydata st l hsub hs⟩
    · obtain ⟨hlen, hcond⟩ := wf_pub_sub hwf (by simp [hsubT])
      have hps : st.p.isSome = true := by rw [← hinv.1, hs]
      obtain ⟨p, hp⟩ := Option.isSome_iff_exists.mp hps
      have hmk : mkOpenPGPKey ((pySplit ':' l).getD 4 []) ((pySplit ':' l).getD 3 [])
          ((pySplit ':' l).getD 2 []) ((pySplit ':' l).getD 11 [])
          ((pySplit ':' l).getD 5 []) none
          = some ⟨(pySplit ':' l).getD 4 [], none, pyInt ((pySplit ':' l).getD 3 []),
              pyInt ((pySplit ':' l).getD 2 []), (pySplit ':' l).getD 11 [],
              (pySplit ':' l).getD 5 [], none, [], []⟩ := by
        unfold mkOpenPGPKey
        rw [if_pos hcond]
      refine Or.inr ⟨by simp [stepViol, hpubF, huidF, hsubT, hfpr, hs], _,
        parseLine_sub_ok keydata st l _ p hsub hs hlen hmk hp, ⟨?_, ?_⟩, ?_⟩
      · exact hs
      · intro _
        exact ⟨_, rfl, by simp⟩
      · simp [hpubF, hs]
  by_cases hfpr : rectypeOf l = "fpr".data
  · have hpubF : isPubLine l = false := by unfold isPubLine; rw [hfpr]; decide
    have huidF : isUidLine l = false := by unfold isUidLine; rw [hfpr]; decide
    have hsubF : isSubLine l = false := by unfold isSubLine; rw [hfpr]; decide
    have hfprT : isFprLine l = true := by unfold isFprLine; rw [hfpr]; decide
    obtain ⟨fp, hu⟩ := wf_get9 hwf (by simp [hfprT]) (by simp [hpubF, hsubF])
    rcases hs : st.pubkeySeen with _ | _
    · have hp : st.p = none := by
        have h1 := hinv.1
        rw [hs] at h1
        exact Option.not_isSome_iff_eq_none.mp (by simp [← h1])
      exact Or.inl ⟨by simp [stepViol, hpubF, huidF, hsubF, hfprT, hs],
        _, parseLine_fpr_nopub keydata st l fp hfpr hu hp⟩
    · have hps : st.p.isSome = true := by rw [← hinv.1, hs]
      obtain ⟨p, hp⟩ := Option.isSome_iff_exists.mp hps
      rcases hcur : st.curIsSub with _ | _
      · refine Or.inr ⟨by simp [stepViol, hpubF, huidF, hsubF, hfprT, hs],
          { st with p := some { p with fingerprint := some fp } },
          parseLine_fpr_prim keydata st l fp p hfpr hu hp hcur, ⟨?_, ?_⟩, ?_⟩
        · exact hs
        · intro hcon
          rw [show ({ st with p := some { p with fingerprint := some fp } } : PState).curIsSub
              = st.curIsSub from rfl, hcur] at hcon
          exact absurd hcon (by simp)
        · simp [hpubF, hs]
      · refine Or.inr ⟨by simp [stepViol, hpubF, huidF, hsubF, hfprT, hs],
          { st with p := some { p with subkeys := setLastSubFpr fp p.subkeys } },
          parseLine_fpr_sub keydata st l fp p hfpr hu hp hcur, ⟨?_, ?_⟩, ?_⟩
        · exact hs
        · intro _
          obtain ⟨p', hp', hne⟩ := hinv.2 hcur
          rw [hp] at hp'
          injection hp' with hp'
          subst hp'
          exact ⟨_, rfl, setLastSubFpr_ne_nil fp _ hne⟩
        · simp [hpubF, hs]
  · have hpubF : isPubLine l = false := by
      unfold isPubLine
      simp only [beq_eq_false_iff_ne, ne_eq]
      exact fun hcon => hpub hcon
    have huidF : isUidLine l = false := by
      unfold isUidLine
      simp only [beq_eq_false_iff_ne, ne_eq]
      exact fun hcon => huid hcon
    have hsubF : isSubLine l = false := by
      unfold isSubLine
      simp only [beq_eq_false_iff_ne, ne_eq]
      exact fun hcon => hsub hcon
    have hfprF : isFprLine l = false := by
      unfold isFprLine
      simp only [beq_eq_false_iff_ne, ne_eq]
      exact fun hcon => hfpr hcon
    refine Or.inr ⟨by simp [stepViol, hpubF, huidF, hsubF, hfprF], st,
      parseLine_other keydata st l htru hpub huid hsub hfpr, hinv, by simp [hpubF]⟩


/-- The parser loop from an invariant-satisfying state over well-formed
lines: it `error_quit`s exactly when the remaining lines violate the
sequencing policy, and otherwise succeeds with the invariant intact,
having seen a `pub` exactly when one was there. -/
theorem foldl_parse (keydata : List Nat) :
    ∀ (lines : List (List Char)) (st : PState), StInv st →
      (∀ l ∈ lines, wellFormedLine l = true) →
      (seqViolation st.pubkeySeen lines = true →
        ∃ m, lines.foldlM (parseLine keydata) st = .error (.quit 11 m)) ∧
      (seqViolation st.pubkeySeen lines = false →
        ∃ st2, lines.foldlM (parseLine keydata) st = .ok st2 ∧ StInv st2 ∧
          st2.pubkeySeen = (st.pubkeySeen || lines.any isPubLine)) := by
  intro lines
  induction lines with
  | nil =>
    intro st hinv _
    constructor
    · intro hv
      simp [seqViolation] at hv
    · intro _
      exact ⟨st, rfl, hinv, by simp⟩
  | cons l rest ih =>
    intro st hinv hwf
    have hwl : wellFormedLine l = true := hwf l (by simp)
    have hwrest : ∀ x ∈ rest, wellFormedLine x = true := fun x hx => hwf x (by simp [hx])
    rcases parseLine_step keydata st l hinv hwl with
      ⟨hv, m, hquit⟩ | ⟨hnv, st2, hok, hinv2, hseen⟩
    · constructor
      · intro _
        refine ⟨m, ?_⟩
        rw [List.foldlM_cons, hquit]
        rfl
      · intro hno
        rw [show seqViolation st.pubkeySeen (l :: rest)
            = (stepViol st.pubkeySeen l || seqViolation (st.pubkeySeen || isPubLine l) rest)
          from rfl, hv] at hno
        simp at hno
    · have ihr := ih st2 hinv2 hwrest
      rw [hseen] at ihr
      constructor
      · intro hv
        rw [show seqViolation st.pubkeySeen (l :: rest)
            = (stepViol st.pubkeySeen l || seqViolation (st.pubkeySeen || isPubLine l) rest)
          from rfl, hnv] at hv
        simp only [Bool.false_or] at hv
        obtain ⟨m, hm⟩ := ihr.1 hv
        refine ⟨m, ?_⟩
        rw [List.foldlM_cons, hok]
        exact hm
      · intro hno
        rw [show seqViolation st.pubkeySeen (l :: rest)
            = (stepViol st.pubkeySeen l || seqViolation (st.pubkeySeen || isPubLine l) rest)
          from rfl, hnv] at hno
        simp only [Bool.false_or] at hno
        obtain ⟨st3, h3, hinv3, hseen3⟩ := ihr.2 hno
        refine ⟨st3, ?_, hinv3, ?_⟩
        · rw [List.foldlM_cons, hok]
          exact h3
        · rw [hseen3]
          simp [List.any_cons, Bool.or_assoc]

theorem parseOkSome_ok (o : Option PKey) : parseOkSome (.ok o) = o.isSome := by
  cases o <;> rfl

/-! ## Claim C3: the parser's error policy -/

/-- C3 — corrected.  On listings whose individual records are well formed
(pub/sub lines with at least 12 fields and numeric length/algorithm/date,
uid/fpr lines with at least 10 fields — all gpg-produced listings are),
the parser `error_quit`s exactly when a second `pub` record appears or a
`uid`/`fpr`/`sub` record precedes every `pub` record, never raises, and on
well-sequenced input returns a primary key exactly when the listing has a
`pub` record.  (On ill-formed records the parser instead dies with an
uncaught exception even on well-sequenced input, and on a well-sequenced
listing with no `pub` record it returns `None` rather than a primary key —
see the counterexample.) -/
theorem c3_parser_error_policy (indata : List Char) (keydata : List Nat)
    (hwf : ∀ l ∈ pySplit '\n' indata, wellFormedLine l = true) :
    isParseQuit (parse_key indata keydata) = seqViolation false (pySplit '\n' indata) ∧
    isParseCrash (parse_key indata keydata) = false ∧
    parseOkSome (parse_key indata keydata)
      = (!seqViolation false (pySplit '\n' indata) && (pySplit '\n' indata).any isPubLine) := by
  have hfold := foldl_parse keydata (pySplit '\n' indata) ⟨none, false, false⟩
    ⟨rfl, by simp⟩ hwf
  rcases hv : seqViolation false (pySplit '\n' indata) with _ | _
  · obtain ⟨st2, h2, hinv2, hseen⟩ := hfold.2 hv
    unfold parse_key
    rw [h2]
    refine ⟨rfl, rfl, ?_⟩
    show parseOkSome (.ok st2.p) = _
    rw [parseOkSome_ok, ← hinv2.1, hseen]
    simp
  · obtain ⟨m, hm⟩ := hfold.1 hv
    unfold parse_key
    rw [hm]
    exact ⟨rfl, rfl, rfl⟩

/-- C3 witness: a well-formed, well-sequenced listing parses to a primary
key with no quit and no crash. -/
theorem c3_parser_error_policy_witness :
    (∀ l ∈ pySplit '\n' ("tru::\npub::1:2:K:3::::::e\nuid:::::::::u@d:\nfpr:::::::::AAAA:".data),
        wellFormedLine l = true) ∧
    isParseQuit (parse_key ("tru::\npub::1:2:K:3::::::e\nuid:::::::::u@d:\nfpr:::::::::AAAA:".data) [7])
      = seqViolation false
          (pySplit '\n' ("tru::\npub::1:2:K:3::::::e\nuid:::::::::u@d:\nfpr:::::::::AAAA:".data)) ∧
    isParseCrash (parse_key ("tru::\npub::1:2:K:3::::::e\nuid:::::::::u@d:\nfpr:::::::::AAAA:".data) [7])
      = false ∧
    parseOkSome (parse_key ("tru::\npub::1:2:K:3::::::e\nuid:::::::::u@d:\nfpr:::::::::AAAA:".data) [7])
      = (!seqViolation false
            (pySplit '\n' ("tru::\npub::1:2:K:3::::::e\nuid:::::::::u@d:\nfpr:::::::::AAAA:".data))
          && (pySplit '\n' ("tru::\npub::1:2:K:3::::::e\nuid:::::::::u@d:\nfpr:::::::::AAAA:".data)).any
              isPubLine) :=
  ⟨by decide,
   c3_parser_error_policy ("tru::\npub::1:2:K:3::::::e\nuid:::::::::u@d:\nfpr:::::::::AAAA:".data)
     [7] (by decide)⟩

/-- C3 counterexample: the one-line listing `pub` is well sequenced (a
first `pub` record, no sequencing violation), yet the parser neither
returns a primary key nor reports the claimed parse error: unpacking
`parts[:12]` of the 1-field line raises `ValueError`. -/
theorem c3_parser_error_policy_counterexample :
    seqViolation false (pySplit '\n' ("pub".data)) = false ∧
    parse_key ("pub".data) []
      = .error (.crash ("ValueError: unpacking parts of a short pub line")) :=
  ⟨by decide, rfl⟩


/-! ## Claims C5 and C6: run characterization lemmas -/

theorem rectype_of_isUid {l : List Char} (h : isUidLine l = true) :
    rectypeOf l = "uid".data := by
  simpa [isUidLine] using h

theorem rectype_of_isSub {l : List Char} (h : isSubLine l = true) :
    rectypeOf l = "sub".data := by
  simpa [isSubLine] using h

theorem rectype_of_isFpr {l : List Char} (h : isFprLine l = true) :
    rectypeOf l = "fpr".data := by
  simpa [isFprLine] using h

theorem uidsOf_cons_not {l : List Char} (rest : List (List Char))
    (h : isUidLine l = false) : uidsOf (l :: rest) = uidsOf rest := by
  simp [uidsOf, h]

theorem uidsOf_cons_uid {l u : List Char} (rest : List (List Char))
    (h : isUidLine l = true) (hu : (pySplit ':' l).get? 9 = some u) :
    uidsOf (l :: rest) = parseaddr u :: uidsOf rest := by
  rw [List.get?_eq_getElem?] at hu
  simp [uidsOf, h, hu]

theorem primFprFrom_true (f0 : Option (List Char)) (lines : List (List Char)) :
    primFprFrom true f0 lines = f0 := by
  cases lines <;> rfl

theorem primFprFrom_cons_other {l : List Char} (f0 : Option (List Char))
    (rest : List (List Char)) (hsub : isSubLine l = false) (hfpr : isFprLine l = false) :
    primFprFrom false f0 (l :: rest) = primFprFrom false f0 rest := by
  simp [primFprFrom, hsub, hfpr]

theorem primFprFrom_cons_sub {l : List Char} (f0 : Option (List Char))
    (rest : List (List Char)) (hsub : isSubLine l = true) :
    primFprFrom false f0 (l :: rest) = f0 := by
  simp [primFprFrom, hsub]

theorem primFprFrom_cons_fpr {l fp : List Char} (f0 : Option (List Char))
    (rest : List (List Char)) (hsub : isSubLine l = false) (hfpr : isFprLine l = true)
    (hu : (pySplit ':' l).get? 9 = some fp) :
    primFprFrom false f0 (l :: rest) = primFprFrom false (some fp) rest := by
  rw [List.get?_eq_getElem?] at hu
  simp [primFprFrom, hsub, hfpr, hu]

theorem primFprFrom_cons_fpr_none {l : List Char} (f0 : Option (List Char))
    (rest : List (List Char)) (hsub : isSubLine l = false) (hfpr : isFprLine l = true)
    (hu : (pySplit ':' l).get? 9 = none) :
    primFprFrom false f0 (l :: rest) = primFprFrom false f0 rest := by
  rw [List.get?_eq_getElem?] at hu
  simp [primFprFrom, hsub, hfpr, hu]

theorem primFprFrom_some_isSome (b : Bool) (f : List Char) :
    ∀ lines : List (List Char), (primFprFrom b (some f) lines).isSome = true := by
  cases b with
  | true => intro lines; rw [primFprFrom_true]; rfl
  | false =>
    intro lines
    induction lines generalizing f with
    | nil => rfl
    | cons l rest ih =>
      by_cases hsub : isSubLine l = true
      · rw [primFprFrom_cons_sub _ _ hsub]; rfl
      · by_cases hfpr : isFprLine l = true
        · rcases hu : (pySplit ':' l).get? 9 with _ | fp
          · rw [primFprFrom_cons_fpr_none _ _ ((Bool.not_eq_true _).mp hsub) hfpr hu]
            exact ih f
          · rw [primFprFrom_cons_fpr _ _ ((Bool.not_eq_true _).mp hsub) hfpr hu]
            exact ih fp
        · rw [primFprFrom_cons_other _ _ ((Bool.not_eq_true _).mp hsub)
            ((Bool.not_eq_true _).mp hfpr)]
          exact ih f

theorem setLastSubFpr_uidlist {fp : List Char} :
    ∀ {l : List PKey}, (∀ s ∈ l, s.uidlist = []) →
      ∀ s ∈ setLastSubFpr fp l, s.uidlist = [] := by
  intro l
  induction l with
  | nil => intro _ s hs; simp [setLastSubFpr] at hs
  | cons a rest ih =>
    intro h s hs
    cases rest with
    | nil =>
      simp only [setLastSubFpr, List.mem_singleton] at hs
      subst hs
      exact h a (by simp)
    | cons b rest2 =>
      simp only [setLastSubFpr, List.mem_cons] at hs
      rcases hs with rfl | hs
      · exact h s (by simp)
      · exact ih (fun x hx => h x (by simp [List.mem_cons.mp hx])) s hs


/-- Inversion of a successful parser step from a state whose primary key
exists: the step is a no-op, a `uid` append to the primary key, a `sub`
append of a fresh (binding-free) subkey, or a fingerprint assignment to
the current key. -/
theorem parseLine_ok_inv (keydata : List Nat) (st : PState) (l : List Char) (st1 : PState)
    (p : PKey) (hp : st.p = some p) (hinv : StInv st)
    (hok : parseLine keydata st l = .ok st1) :
    StInv st1 ∧ ∃ p1, st1.p = some p1 ∧ st1.curIsSub = (st.curIsSub || isSubLine l) ∧
      (((isUidLine l || isSubLine l || isFprLine l) = false ∧ p1 = p) ∨
       (isUidLine l = true ∧ ∃ u, (pySplit ':' l).get? 9 = some u ∧ p1 = addUid p u) ∨
       (isSubLine l = true ∧ ∃ s, s.uidlist = [] ∧
          p1 = { p with subkeys := p.subkeys ++ [s] }) ∨
       (isFprLine l = true ∧ ∃ fp, (pySplit ':' l).get? 9 = some fp ∧
         ((st.curIsSub = true ∧ p1 = { p with subkeys := setLastSubFpr fp p.subkeys }) ∨
          (st.curIsSub = false ∧ p1 = { p with fingerprint := some fp })))) := by
  have hseen : st.pubkeySeen = true := by rw [hinv.1, hp]; rfl
  by_cases htru : rectypeOf l = "tru".data
  · have huid : isUidLine l = false := by unfold isUidLine; rw [htru]; decide
    have hsub : isSubLine l = false := by unfold isSubLine; rw [htru]; decide
    have hfpr : isFprLine l = false := by unfold isFprLine; rw [htru]; decide
    rw [parseLine_tru keydata st l htru] at hok
    injection hok with hok
    subst hok
    exact ⟨hinv, p, hp, by simp [hsub], Or.inl ⟨by simp [huid, hsub, hfpr], rfl⟩⟩
  by_cases hpub : rectypeOf l = "pub".data
  · rw [parseLine_pub_seen keydata st l hpub hseen] at hok
    exact absurd hok (by simp)
  by_cases huid : rectypeOf l = "uid".data
  · have huidT : isUidLine l = true := by unfold isUidLine; rw [huid]; decide
    have hsub : isSubLine l = false := by unfold isSubLine; rw [huid]; decide
    rcases hu : (pySplit ':' l).get? 9 with _ | u
    · rw [parseLine_uid_crash keydata st l huid hu] at hok
      exact absurd hok (by simp)
    · rw [parseLine_uid_ok keydata st l u p huid hu hp] at hok
      injection hok with hok
      subst hok
      refine ⟨⟨by rw [hseen]; rfl, ?_⟩, addUid p u, rfl, by simp [hsub],
        Or.inr (Or.inl ⟨huidT, u, rfl, rfl⟩)⟩
      intro hcur
      obtain ⟨p', hp', hne⟩ := hinv.2 hcur
      rw [hp] at hp'
      injection hp' with hp'
      subst hp'
      exact ⟨_, rfl, by simpa [addUid] using hne⟩
  by_cases hsub : rectypeOf l = "sub".data
  · have hsubT : isSubLine l = true := by unfold isSubLine; rw [hsub]; decide
    by_cases hlen : (pySplit ':' l).length < 12
    · rw [parseLine_sub_short keydata st l hsub hseen hlen] at hok
      exact absurd hok (by simp)
    · rcases hmk : mkOpenPGPKey ((pySplit ':' l).getD 4 []) ((pySplit ':' l).getD 3 [])
          ((pySplit ':' l).getD 2 []) ((pySplit ':' l).getD 11 [])
          ((pySplit ':' l).getD 5 []) none with _ | s
      · rw [parseLine_sub_badnum keydata st l hsub hseen hlen hmk] at hok
        exact absurd hok (by simp)
      · rw [parseLine_sub_ok keydata st l s p hsub hseen hlen hmk hp] at hok
        injection hok with hok
        subst hok
        refine ⟨⟨by rw [hseen]; rfl, fun _ => ⟨_, rfl, by simp⟩⟩,
          { p with subkeys := p.subkeys ++ [s] }, rfl, by simp [hsubT],
          Or.inr (Or.inr (Or.inl ⟨hsubT, s, (mkOpenPGPKey_shape hmk).1, rfl⟩))⟩
  by_cases hfpr : rectypeOf l = "fpr".data
  · have hfprT : isFprLine l = true := by unfold isFprLine; rw [hfpr]; decide
    have hsubF : isSubLine l = false := by unfold isSubLine; rw [hfpr]; decide
    rcases hu : (pySplit ':' l).get? 9 with _ | fp
    · rw [parseLine_fpr_crash keydata st l hfpr hu] at hok
      exact absurd hok (by simp)
    · rcases hcur : st.curIsSub with _ | _
      · rw [parseLine_fpr_prim keydata st l fp p hfpr hu hp hcur] at hok
        injection hok with hok
        subst hok
        refine ⟨⟨by rw [hseen]; rfl, ?_⟩, { p with fingerprint := some fp }, rfl,
          by simp [hsubF, hcur],
          Or.inr (Or.inr (Or.inr ⟨hfprT, fp, rfl, Or.inr ⟨rfl, rfl⟩⟩))⟩
        intro hcon
        rw [show ({ st with p := some { p with fingerprint := some fp } } : PState).curIsSub
            = st.curIsSub from rfl, hcur] at hcon
        exact absurd hcon (by simp)
      · rw [parseLine_fpr_sub keydata st l fp p hfpr hu hp hcur] at hok
        injection hok with hok
        subst hok
        refine ⟨⟨by rw [hseen]; rfl, ?_⟩, { p with subkeys := setLastSubFpr fp p.subkeys },
          rfl, by simp [hsubF, hcur],
          Or.inr (Or.inr (Or.inr ⟨hfprT, fp, rfl, Or.inl ⟨rfl, rfl⟩⟩))⟩
        intro _
        obtain ⟨p', hp', hne⟩ := hinv.2 hcur
        rw [hp] at hp'
        injection hp' with hp'
        subst hp'
        exact ⟨_, rfl, setLastSubFpr_ne_nil fp _ hne⟩
  · have huidF : isUidLine l = false := by
      unfold isUidLine
      simp only [beq_eq_false_iff_ne, ne_eq]
      exact fun hcon => huid hcon
    have hsubF : isSubLine l = false := by
      unfold isSubLine
      simp only [beq_eq_false_iff_ne, ne_eq]
      exact fun hcon => hsub hcon
    have hfprF : isFprLine l = false := by
      unfold isFprLine
      simp only [beq_eq_false_iff_ne, ne_eq]
      exact fun hcon => hfpr hcon
    rw [parseLine_other keydata st l htru hpub huid hsub hfpr] at hok
    injection hok with hok
    subst hok
    exact ⟨hinv, p, hp, by simp [hsubF], Or.inl ⟨by simp [huidF, hsubF, hfprF], rfl⟩⟩


/-- Running the loop from a state whose primary key exists: on success the
primary key survives, its identity bindings grow by exactly the `uid`
records of the processed lines in document order, subkeys never acquire
identity bindings, and its fingerprint ends as `primFprFrom` reads off
the lines. -/
theorem foldl_post_pub (keydata : List Nat) :
    ∀ (lines : List (List Char)) (st : PState) (p : PKey),
      st.p = some p → StInv st →
      ∀ st2, lines.foldlM (parseLine keydata) st = .ok st2 →
      ∃ p2, st2.p = some p2 ∧
        p2.uidlist = p.uidlist ++ uidsOf lines ∧
        ((∀ s ∈ p.subkeys, s.uidlist = []) → ∀ s ∈ p2.subkeys, s.uidlist = []) ∧
        p2.fingerprint = primFprFrom st.curIsSub p.fingerprint lines := by
  intro lines
  induction lines with
  | nil =>
    intro st p hp _ st2 hok
    have hst : st = st2 := by injection hok
    subst hst
    refine ⟨p, hp, by simp [uidsOf], fun h => h, ?_⟩
    cases hcur : st.curIsSub <;> rfl
  | cons l rest ih =>
    intro st p hp hinv st2 hok
    rcases hstep : parseLine keydata st l with e | st1
    · rw [List.foldlM_cons, hstep] at hok
      exact absurd hok (by simp [Bind.bind, Except.bind])
    · rw [List.foldlM_cons, hstep] at hok
      have hok2 : rest.foldlM (parseLine keydata) st1 = .ok st2 := hok
      obtain ⟨hinv1, p1, hp1, hcur1, hcases⟩ :=
        parseLine_ok_inv keydata st l st1 p hp hinv hstep
      obtain ⟨p2, hp2, huid2, hsubk2, hfpr2⟩ := ih st1 p1 hp1 hinv1 st2 hok2
      rcases hcases with ⟨hnone, rfl⟩ | ⟨huidT, u, hu, rfl⟩ | ⟨hsubT, s, hsuid, rfl⟩ |
        ⟨hfprT, fp, hu, hcur⟩
      · simp only [Bool.or_eq_false_iff] at hnone
        refine ⟨p2, hp2, ?_, hsubk2, ?_⟩
        · rw [huid2, uidsOf_cons_not rest hnone.1.1]
        · rw [hfpr2, hcur1, hnone.1.2]
          cases hcs : st.curIsSub with
          | true => rw [Bool.true_or, primFprFrom_true, primFprFrom_true]
          | false =>
            rw [Bool.false_or, primFprFrom_cons_other _ _ hnone.1.2 hnone.2]
      · have hsubF : isSubLine l = false := by
          unfold isSubLine
          rw [rectype_of_isUid huidT]
          decide
        have hfprF : isFprLine l = false := by
          unfold isFprLine
          rw [rectype_of_isUid huidT]
          decide
        refine ⟨p2, hp2, ?_, ?_, ?_⟩
        · rw [huid2, uidsOf_cons_uid rest huidT hu]
          simp [addUid]
        · intro hall
          exact hsubk2 (by simpa [addUid] using hall)
        · rw [hfpr2, hcur1, hsubF]
          cases hcs : st.curIsSub with
          | true =>
            rw [Bool.true_or, primFprFrom_true, primFprFrom_true]
            simp [addUid]
          | false =>
            rw [Bool.false_or, primFprFrom_cons_other _ _ hsubF hfprF]
            simp [addUid]
      · have huidF : isUidLine l = false := by
          unfold isUidLine
          rw [rectype_of_isSub hsubT]
          decide
        refine ⟨p2, hp2, ?_, ?_, ?_⟩
        · rw [huid2, uidsOf_cons_not rest huidF]
        · intro hall
          refine hsubk2 ?_
          intro x hx
          rcases (by simpa using hx : x ∈ p.subkeys ∨ x = s) with hx2 | rfl
          · exact hall x hx2
          · exact hsuid
        · rw [hfpr2, hcur1, hsubT]
          cases hcs : st.curIsSub with
          | true => rw [Bool.true_or, primFprFrom_true, primFprFrom_true]
          | false =>
            rw [Bool.false_or, primFprFrom_true, primFprFrom_cons_sub _ _ hsubT]
      · have huidF : isUidLine l = false := by
          unfold isUidLine
          rw [rectype_of_isFpr hfprT]
          decide
        have hsubF : isSubLine l = false := by
          unfold isSubLine
          rw [rectype_of_isFpr hfprT]
          decide
        rcases hcur with ⟨hcs, rfl⟩ | ⟨hcs, rfl⟩
        · refine ⟨p2, hp2, ?_, ?_, ?_⟩
          · rw [huid2, uidsOf_cons_not rest huidF]
          · intro hall
            exact hsubk2 (setLastSubFpr_uidlist hall)
          · rw [hfpr2, hcur1, hcs, hsubF, Bool.or_false, primFprFrom_true, primFprFrom_true]
        · refine ⟨p2, hp2, ?_, ?_, ?_⟩
          · rw [huid2, uidsOf_cons_not rest huidF]
          · intro hall
            exact hsubk2 hall
          · rw [hfpr2, hcur1, hcs, hsubF, Bool.false_or,
              primFprFrom_cons_fpr _ _ hsubF hfprT hu]


theorem rectype_of_isPub {l : List Char} (h : isPubLine l = true) :
    rectypeOf l = "pub".data := by
  simpa [isPubLine] using h

theorem primaryFprOfListing_cons_not {l : List Char} (rest : List (List Char))
    (h : isPubLine l = false) :
    primaryFprOfListing (l :: rest) = primaryFprOfListing rest := by
  simp [primaryFprOfListing, h]

theorem primaryFprOfListing_cons_pub {l : List Char} (rest : List (List Char))
    (h : isPubLine l = true) :
    primaryFprOfListing (l :: rest) = primFprFrom false none rest := by
  simp [primaryFprOfListing, h]

/-- Inversion of a successful parser step before any `pub` record: the
line was ignorable, or it was the first `pub` record and the new primary
key starts with no bindings, no subkeys and no fingerprint. -/
theorem parseLine_ok_inv_none (keydata : List Nat) (st : PState) (l : List Char)
    (st1 : PState) (hp : st.p = none) (hseen : st.pubkeySeen = false)
    (hok : parseLine keydata st l = .ok st1) :
    ((isPubLine l || isUidLine l || isSubLine l || isFprLine l) = false ∧ st1 = st) ∨
    (isPubLine l = true ∧ ∃ p0, st1 = ⟨some p0, true, false⟩ ∧
       p0.uidlist = [] ∧ p0.subkeys = [] ∧ p0.fingerprint = none) := by
  by_cases htru : rectypeOf l = "tru".data
  · have hpubF : isPubLine l = false := by unfold isPubLine; rw [htru]; decide
    have huid : isUidLine l = false := by unfold isUidLine; rw [htru]; decide
    have hsub : isSubLine l = false := by unfold isSubLine; rw [htru]; decide
    have hfpr : isFprLine l = false := by unfold isFprLine; rw [htru]; decide
    rw [parseLine_tru keydata st l htru] at hok
    injection hok with hok
    subst hok
    exact Or.inl ⟨by simp [hpubF, huid, hsub, hfpr], rfl⟩
  by_cases hpub : rectypeOf l = "pub".data
  · have hpubT : isPubLine l = true := by unfold isPubLine; rw [hpub]; decide
    by_cases hlen : (pySplit ':' l).length < 12
    · rw [parseLine_pub_short keydata st l hpub hseen hlen] at hok
      exact absurd hok (by simp)
    · rcases hmk : mkOpenPGPKey ((pySplit ':' l).getD 4 []) ((pySplit ':' l).getD 3 [])
          ((pySplit ':' l).getD 2 []) ((pySplit ':' l).getD 11 [])
          ((pySplit ':' l).getD 5 []) (some keydata) with _ | p0
      · rw [parseLine_pub_badnum keydata st l hpub hseen hlen hmk] at hok
        exact absurd hok (by simp)
      · rw [parseLine_pub_new keydata st l p0 hpub hseen hlen hmk] at hok
        injection hok with hok
        subst hok
        obtain ⟨h1, h2, h3⟩ := mkOpenPGPKey_shape hmk
        exact Or.inr ⟨hpubT, p0, rfl, h1, h2, h3⟩
  by_cases huid : rectypeOf l = "uid".data
  · rcases hu : (pySplit ':' l).get? 9 with _ | u
    · rw [parseLine_uid_crash keydata st l huid hu] at hok
      exact absurd hok (by simp)
    · rw [parseLine_uid_nopub keydata st l u huid hu hp] at hok
      exact absurd hok (by simp)
  by_cases hsub : rectypeOf l = "sub".data
  · rw [parseLine_sub_nopub keydata st l hsub hseen] at hok
    exact absurd hok (by simp)
  by_cases hfpr : rectypeOf l = "fpr".data
  · rcases hu : (pySplit ':' l).get? 9 with _ | fp
    · rw [parseLine_fpr_crash keydata st l hfpr hu] at hok
      exact absurd hok (by simp)
    · rw [parseLine_fpr_nopub keydata st l fp hfpr hu hp] at hok
      exact absurd hok (by simp)
  · have hpubF : isPubLine l = false := by
      unfold isPubLine
      simp only [beq_eq_false_iff_ne, ne_eq]
      exact fun hcon => hpub hcon
    have huidF : isUidLine l = false := by
      unfold isUidLine
      simp only [beq_eq_false_iff_ne, ne_eq]
      exact fun hcon => huid hcon
    have hsubF : isSubLine l = false := by
      unfold isSubLine
      simp only [beq_eq_false_iff_ne, ne_eq]
      exact fun hcon => hsub hcon
    have hfprF : isFprLine l = false := by
      unfold isFprLine
      simp only [beq_eq_false_iff_ne, ne_eq]
      exact fun hcon => hfpr hcon
    rw [parseLine_other keydata st l htru hpub huid hsub hfpr] at hok
    injection hok with hok
    subst hok
    exact Or.inl ⟨by simp [hpubF, huidF, hsubF, hfprF], rfl⟩

/-- A successful full run of the parser loop from the initial state: no
primary key at all, or a primary key whose identity bindings are exactly
the `uid` records in document order, whose subkeys carry no bindings, and
whose fingerprint is the last `fpr` record between the `pub` record and
the first `sub` record. -/
theorem foldl_from_init (keydata : List Nat) :
    ∀ (lines : List (List Char)) (st : PState),
      st.p = none → st.pubkeySeen = false → st.curIsSub = false →
      ∀ st2, lines.foldlM (parseLine keydata) st = .ok st2 →
      st2.p = none ∨
      (∃ p2, st2.p = some p2 ∧ p2.uidlist = uidsOf lines ∧
        (∀ s ∈ p2.subkeys, s.uidlist = []) ∧
        p2.fingerprint = primaryFprOfListing lines) := by
  intro lines
  induction lines with
  | nil =>
    intro st hp _ _ st2 hok
    have hst : st = st2 := by injection hok
    subst hst
    exact Or.inl hp
  | cons l rest ih =>
    intro st hp hseen hcur st2 hok
    rcases hstep : parseLine keydata st l with e | st1
    · rw [List.foldlM_cons, hstep] at hok
      exact absurd hok (by simp [Bind.bind, Except.bind])
    · rw [List.foldlM_cons, hstep] at hok
      have hok2 : rest.foldlM (parseLine keydata) st1 = .ok st2 := hok
      rcases parseLine_ok_inv_none keydata st l st1 hp hseen hstep with
        ⟨hnone, rfl⟩ | ⟨hpubT, p0, rfl, hu0, hs0, hf0⟩
      · simp only [Bool.or_eq_false_iff] at hnone
        rcases ih st1 hp hseen hcur st2 hok2 with hres | ⟨p2, hp2, huid2, hsubk2, hfpr2⟩
        · exact Or.inl hres
        · refine Or.inr ⟨p2, hp2, ?_, hsubk2, ?_⟩
          · rw [huid2, uidsOf_cons_not rest hnone.1.1.2]
          · rw [hfpr2, primaryFprOfListing_cons_not rest hnone.1.1.1]
      · obtain ⟨p2, hp2, huid2, hsubk2, hfpr2⟩ :=
          foldl_post_pub keydata rest ⟨some p0, true, false⟩ p0 rfl
            ⟨rfl, by simp⟩ st2 hok2
        have huidF : isUidLine l = false := by
          unfold isUidLine
          rw [rectype_of_isPub hpubT]
          decide
        refine Or.inr ⟨p2, hp2, ?_, ?_, ?_⟩
        · rw [huid2, hu0, uidsOf_cons_not rest huidF]
          simp
        · refine hsubk2 ?_
          rw [hs0]
          simp
        · rw [hfpr2, hf0, primaryFprOfListing_cons_pub rest hpubT]


/-- What a successful `parse_key` run says about the returned primary key:
bindings are the `uid` records in document order, subkeys carry none, and
the fingerprint is the last `fpr` record in the primary context. -/
theorem parse_key_ok_some (indata : List Char) (keydata : List Nat) (k : PKey)
    (hok : parse_key indata keydata = .ok (some k)) :
    k.uidlist = uidsOf (pySplit '\n' indata) ∧
    (∀ s ∈ k.subkeys, s.uidlist = []) ∧
    k.fingerprint = primaryFprOfListing (pySplit '\n' indata) := by
  unfold parse_key at hok
  rcases hfold : (pySplit '\n' indata).foldlM (parseLine keydata)
      (⟨none, false, false⟩ : PState) with e | st2
  · rw [hfold] at hok
    exact absurd hok (by simp [Except.map])
  · rw [hfold] at hok
    have hst : st2.p = some k := by
      rw [show Except.map PState.p (.ok st2) = (.ok st2.p : Except PErr (Option PKey))
        from rfl] at hok
      injection hok
    rcases foldl_from_init keydata (pySplit '\n' indata) ⟨none, false, false⟩
        rfl rfl rfl st2 hfold with hnone | ⟨p2, hp2, h1, h2, h3⟩
    · rw [hnone] at hst
      exact absurd hst (by simp)
    · rw [hp2] at hst
      injection hst with hst
      subst hst
      exact ⟨h1, h2, h3⟩

/-! ## Claim C5: identity bindings attach to the primary key -/

/-- C5 — confirmed.  Whenever parsing succeeds with a primary key — in
particular on listings where `sub` records intervene between the `pub`
record and a later `uid` record — every `uid` record's parsed
(name, address) pair lands in the primary key's binding list, and no
subkey ever carries identity bindings. -/
theorem c5_uid_binding_attaches (indata : List Char) (keydata : List Nat) (k : PKey)
    (hok : parse_key indata keydata = .ok (some k))
    (hsub : (pySplit '\n' indata).any isSubLine = true)
    (l u : List Char) (hmem : l ∈ pySplit '\n' indata)
    (huid : isUidLine l = true) (hu : (pySplit ':' l).get? 9 = some u) :
    parseaddr u ∈ k.uidlist ∧ ∀ s ∈ k.subkeys, s.uidlist = [] := by
  obtain ⟨h1, h2, _⟩ := parse_key_ok_some indata keydata k hok
  refine ⟨?_, h2⟩
  rw [h1]
  unfold uidsOf
  rw [List.get?_eq_getElem?] at hu
  exact List.mem_filterMap.mpr ⟨l, hmem, by simp [huid, hu]⟩

/-- C5 witness: a listing with a `sub` record between `pub` and `uid`; the
binding from the `uid` line is on the primary key and the subkey carries
none. -/
theorem c5_uid_binding_attaches_witness :
    parseaddr ("<j@e>".data) ∈
      (⟨"K".data, none, 2, 1, "e".data, "3".data, some [7],
        [([], "j@e".data)],
        [⟨"L".data, some ("AAAA".data), 2, 1, "s".data, "4".data, none, [], []⟩]⟩
        : PKey).uidlist ∧
    ∀ s ∈ (⟨"K".data, none, 2, 1, "e".data, "3".data, some [7],
        [([], "j@e".data)],
        [⟨"L".data, some ("AAAA".data), 2, 1, "s".data, "4".data, none, [], []⟩]⟩
        : PKey).subkeys, s.uidlist = [] :=
  c5_uid_binding_attaches
    ("pub::1:2:K:3::::::e\nsub::1:2:L:4::::::s\nuid:::::::::<j@e>:\nfpr:::::::::AAAA:".data)
    [7] _ rfl (by decide) ("uid:::::::::<j@e>:".data) ("<j@e>".data)
    (by decide) (by decide) (by decide)

/-! ## Claim C6: fingerprint assignment semantics -/

/-- C6 — corrected.  A key's fingerprint is not immutable once set: a
later `fpr` record in the same key context overwrites it (`set_fingerprint`
is a plain assignment), so the primary key's final fingerprint is the last
`fpr` record between the `pub` record and the first `sub` record; a
fingerprint is never cleared — once set it remains set (the second
conjunct: overwriting always leaves a value). -/
theorem c6_fingerprint_last_write (indata : List Char) (keydata : List Nat) (k : PKey)
    (hok : parse_key indata keydata = .ok (some k)) :
    k.fingerprint = primaryFprOfListing (pySplit '\n' indata) ∧
    (∀ (b : Bool) (f : List Char) (ls : List (List Char)),
      (primFprFrom b (some f) ls).isSome = true) :=
  ⟨(parse_key_ok_some indata keydata k hok).2.2,
   fun b f ls => primFprFrom_some_isSome b f ls⟩

/-- C6 witness: with an `fpr` for the primary key and a later `fpr` after
a `sub` record, the primary keeps its own (last primary-context)
fingerprint and the subkey's `fpr` lands on the subkey. -/
theorem c6_fingerprint_last_write_witness :
    (⟨"K".data, some ("AAAA".data), 2, 1, "e".data, "3".data, some [7], [],
      [⟨"L".data, some ("BBBB".data), 2, 1, "s".data, "4".data, none, [], []⟩]⟩
      : PKey).fingerprint
      = primaryFprOfListing
          (pySplit '\n'
            ("pub::1:2:K:3::::::e\nfpr:::::::::AAAA:\nsub::1:2:L:4::::::s\nfpr:::::::::BBBB:".data)) ∧
    (∀ (b : Bool) (f : List Char) (ls : List (List Char)),
      (primFprFrom b (some f) ls).isSome = true) :=
  c6_fingerprint_last_write
    ("pub::1:2:K:3::::::e\nfpr:::::::::AAAA:\nsub::1:2:L:4::::::s\nfpr:::::::::BBBB:".data)
    [7] _ rfl

/-- C6 counterexample: two `fpr` records for the same (primary) key
context; the claim says the first value `AAAA` is kept, but the parser
ends with `BBBB` — the second `fpr` overwrote the fingerprint. -/
theorem c6_fingerprint_last_write_counterexample :
    parsedPrimaryFpr
      (parse_key ("pub::1:2:K:3::::::e\nfpr:::::::::AAAA:\nfpr:::::::::BBBB:".data) [])
      = some ("BBBB".data) ∧
    (some ("BBBB".data) : Option (List Char)) ≠ some ("AAAA".data) :=
  ⟨rfl, by decide⟩


/-! ## Claim C9: the bounded process runner on timeout -/

/-- C9 — confirmed (concurrency abstracted by the `ProcBehavior` oracle:
what `communicate()` captured, whether the worker thread finished within
`join(self.timeout)`, and the `returncode` observed after the kill — a
negative signal number, by the `subprocess` contract, which is the
`hsig` hypothesis).  On timeout the returned output is exactly the
already-produced output with the human-readable marker appended — nothing
is lost — and the status is negative, distinct from every real successful
exit code (0), so the orchestration's `returncode != 0` test treats the
step as failed. -/
theorem c9_timeout_marker (proc : ProcBehavior) (timeout : Nat)
    (htime : proc.finishedInTime = false) (hsig : proc.finalReturncode < 0) :
    (runProgramStart proc timeout).output
      = proc.producedOutput ++ timeoutMarker timeout ∧
    (runProgramStart proc timeout).returncode ≠ 0 ∧
    (∀ (env : MainEnv) (u : List Char),
      env.importRes = runProgramStart proc timeout →
      validate_uid env.uidArg = some u →
      main_run env = .exit 1 none) := by
  refine ⟨by simp [runProgramStart, htime], by simp [runProgramStart, htime]; omega, ?_⟩
  intro env u henv hval
  have hrc : env.importRes.returncode ≠ 0 := by
    rw [henv]
    simp [runProgramStart, htime]
    omega
  simp only [main_run, hval]
  rw [if_pos hrc]

/-- C9 witness: a process producing `out` that misses a 5-second deadline
and dies with SIGTERM (returncode −15). -/
theorem c9_timeout_marker_witness :
    (runProgramStart ⟨"out".data, false, -15⟩ 5).output
      = "out".data ++ timeoutMarker 5 ∧
    (runProgramStart ⟨"out".data, false, -15⟩ 5).returncode ≠ 0 ∧
    main_run { uidArg := "j@e".data, keyfile := [7],
               importRes := runProgramStart ⟨"out".data, false, -15⟩ 5,
               listRes := ⟨[], 0⟩, exportRes := ([], 0), rmtreeOk := true,
               generic := false }
      = .exit 1 none := by
  have h := c9_timeout_marker ⟨"out".data, false, -15⟩ 5 rfl (by decide)
  exact ⟨h.1, h.2.1, h.2.2 _ ("j@e".data) rfl rfl⟩

/-! ## Claim C7: cleanup failure on the success path -/

/-- C7 — corrected.  When the whole pipeline has succeeded (identity
validated, all three gpg steps with exit status 0, listing parsed to a
primary key carrying the identity, record generated and printed), a
failing `rmtree` does NOT leave the success status: the program prints a
diagnostic and exits with status 11 (source lines 305-307), a nonzero
status — the record, however, has already been printed. -/
theorem c7_cleanup_failure_exit (env : MainEnv) (u : List Char) (k : PKey)
    (record : List Char)
    (hval : validate_uid env.uidArg = some u)
    (himp : env.importRes.returncode = 0)
    (hlist : env.listRes.returncode = 0)
    (hparse : parse_key env.listRes.output env.keyfile = .ok (some k))
    (huid : has_uid k u = true)
    (hexp : env.exportRes.2 = 0)
    (hgen : gen_openpgpkey u env.exportRes.1 env.generic = some record)
    (hrm : env.rmtreeOk = false) :
    main_run env = .exit 11 (some record) ∧ (11 : Nat) ≠ 0 := by
  refine ⟨?_, by decide⟩
  simp [main_run, hval, himp, hlist, hparse, huid, hexp, hgen, hrm]

/-- C7 witness: a concrete successful run with `rmtree` failing. -/
theorem c7_cleanup_failure_exit_witness :
    main_run { uidArg := "j@e".data, keyfile := [7], importRes := ⟨[], 0⟩,
               listRes := ⟨"pub::1:2:K:3::::::e\nuid:::::::::<j@e>:\nfpr:::::::::AAAA:".data, 0⟩,
               exportRes := ([1, 2, 3], 0), rmtreeOk := false, generic := false }
      = .exit 11 (some ((gen_openpgpkey ("j@e".data) [1, 2, 3] false).get (by rfl))) ∧
    (11 : Nat) ≠ 0 :=
  c7_cleanup_failure_exit _ ("j@e".data)
    ⟨"K".data, some ("AAAA".data), 2, 1, "e".data, "3".data, some [7],
      [([], "j@e".data)], []⟩
    ((gen_openpgpkey ("j@e".data) [1, 2, 3] false).get (by rfl))
    rfl rfl rfl rfl rfl rfl (Option.some_get (by rfl)).symm rfl

/-- C7 counterexample: the identical successful pipeline exits 0 when
`rmtree` succeeds and 11 — not the claimed success status 0 — when it
fails. -/
theorem c7_cleanup_failure_exit_counterexample :
    exitCodeOf (main_run
      { uidArg := "j@e".data, keyfile := [7], importRes := ⟨[], 0⟩,
        listRes := ⟨"pub::1:2:K:3::::::e\nuid:::::::::<j@e>:\nfpr:::::::::AAAA:".data, 0⟩,
        exportRes := ([1, 2, 3], 0), rmtreeOk := true, generic := false })
      = some 0 ∧
    exitCodeOf (main_run
      { uidArg := "j@e".data, keyfile := [7], importRes := ⟨[], 0⟩,
        listRes := ⟨"pub::1:2:K:3::::::e\nuid:::::::::<j@e>:\nfpr:::::::::AAAA:".data, 0⟩,
        exportRes := ([1, 2, 3], 0), rmtreeOk := false, generic := false })
      = some 11 ∧
    (11 : Nat) ≠ 0 :=
  ⟨rfl, rfl, by decide⟩

/-! ## Claim C8: malformed identity handling -/

/-- C8 — the claim describes the intended behavior, but the code has a
bug: on a malformed identity (`validate_uid` returns `None`), line 274
calls `error_quit(11, "invalid uid specified", None)` with three
arguments while `error_quit` (line 261) takes two, so the program dies
with an uncaught `TypeError` — the interpreter exits with status 1
(nonzero) and no partial record is produced, but the input-error message
is never reported to the user; a traceback appears instead. -/
theorem c8_invalid_uid_crash :
    validate_uid ("janeexample.com".data) = none ∧
    main_run ⟨"janeexample.com".data, [7], ⟨[], 0⟩, ⟨[], 0⟩, ([], 0), true, false⟩
      = .pyError ("TypeError: error_quit() takes exactly 2 arguments (3 given)") ∧
    recordOf (main_run ⟨"janeexample.com".data, [7], ⟨[], 0⟩, ⟨[], 0⟩, ([], 0), true, false⟩)
      = none :=
  ⟨by decide, rfl, rfl⟩

end Gpg2Openpgpkey
